import Mathlib

set_option linter.unusedVariables false

/-!
Verification of the transfer pipeline of the fitness toolkit
(COROS → Garmin activity transfer).

Each section embeds one component of the source, translated directly
from the Python implementation:

* `Queue`    — `services/transfer_queue.py` (job listing, cancel_job)
* `Tmpl`     — `services/transfer_settings.py` (TemplateRenderer)
* `Settings` — `services/transfer_settings.py` (save/validate/normalize)
* `Tcx`      — `clients/coros.py` (fix_tcx_extensions)
* `Upload`   — `clients/garmin.py` (upload_fit, _confirm_duplicate_by_time)
             and the dispatch in `services/transfer_worker.py`
* `Retry`    — `services/transfer_worker.py` (_process_single_item retry loop)
* `Cancel`   — a small transition system for the worker/cancel interleaving
-/

namespace Queue

/-- Job status values from `transfer_queue.py`. -/
inductive JobStatus where
  | pending | running | paused | completed | failed | cancelled
deriving DecidableEq, Repr

/-- Item status values from `transfer_queue.py`. -/
inductive ItemStatus where
  | pending | downloading | uploading | success | skipped | failed
deriving DecidableEq, Repr

/-- A row of `transfer_jobs` as used by `list_jobs` / `_get_next_job`. -/
structure Job where
  id : Nat
  status : JobStatus
  createdAt : Nat
deriving DecidableEq, Repr

/-- `TransferQueueService.list_jobs`: `ORDER BY created_at DESC LIMIT ?`.
The SQL sort is modelled with a stable merge sort on the descending
created_at order. -/
def listJobs (jobs : List Job) (limit : Nat) : List Job :=
  ((jobs.mergeSort (fun a b => decide (b.createdAt ≤ a.createdAt))).take limit)

/-- `TransferWorker._get_next_job`: scan `list_jobs(limit=10)` and return the
first job whose status is pending. -/
def getNextJob (jobs : List Job) : Option Job :=
  (listJobs jobs 10).find? (fun j => j.status = JobStatus.pending)

/-- A row of `transfer_items` as touched by `cancel_job` /
`update_job_counts`. `updated_at` is bumped to the current timestamp by
every item update; the Python `error_message` column is kept to record
that `cancel_job` does not write it. -/
structure Item where
  id : Nat
  status : ItemStatus
  errorMessage : Option String
  updatedAt : Nat
deriving DecidableEq, Repr

/-- The durable state of one job together with its items, as read and
written by `TransferQueueService`. -/
structure JobState where
  status : JobStatus
  completedAt : Option Nat
  items : List Item
  totalItems : Nat
  completedItems : Nat
  successCount : Nat
  skippedCount : Nat
  failedCount : Nat
deriving DecidableEq, Repr

/-- `TransferQueueService.update_job_counts`: recount items by status
(SQL `SUM(CASE WHEN ...)`) and write the aggregates back onto the job. -/
def updateJobCounts (s : JobState) : JobState :=
  { s with
    totalItems := s.items.length
    completedItems := s.items.countP (fun i =>
      decide (i.status = ItemStatus.success ∨ i.status = ItemStatus.skipped ∨
        i.status = ItemStatus.failed))
    successCount := s.items.countP (fun i => decide (i.status = ItemStatus.success))
    skippedCount := s.items.countP (fun i => decide (i.status = ItemStatus.skipped))
    failedCount := s.items.countP (fun i => decide (i.status = ItemStatus.failed)) }

/-- `TransferQueueService.cancel_job` on an existing job: refuse when the
job status is `completed` or `cancelled`; otherwise set every pending
item to `failed` (only `status` and `updated_at` change — no error
message is written), mark the job `cancelled` with `completed_at = now`,
then recompute counts. -/
def cancelJob (s : JobState) (now : Nat) : Bool × JobState :=
  if s.status = JobStatus.completed ∨ s.status = JobStatus.cancelled then
    (false, s)
  else
    let items' := s.items.map (fun i =>
      if i.status = ItemStatus.pending then
        { i with status := ItemStatus.failed, updatedAt := now }
      else i)
    let s' := { s with
      items := items'
      status := JobStatus.cancelled
      completedAt := some now }
    (true, updateJobCounts s')

/-! Concrete jobs used by the C2 theorems: two pending jobs, `jobB`
created strictly later than `jobA`. -/

def jobA : Job := { id := 1, status := JobStatus.pending, createdAt := 1 }

def jobB : Job := { id := 2, status := JobStatus.pending, createdAt := 2 }

/-- Evaluate `getNextJob` on the two-job store. The input list is already
in descending created_at order, so the merge sort leaves it unchanged. -/
theorem getNextJob_concrete : getNextJob [jobB, jobA] = some jobB := by
  unfold getNextJob listJobs
  rw [List.mergeSort_of_sorted (by decide)]
  rfl

/-- Helper: the first pending job of a list sorted by descending
created_at has the maximal created_at among its pending jobs. -/
theorem find_pending_max (l : List Job)
    (hs : l.Pairwise (fun a b => b.createdAt ≤ a.createdAt)) (j : Job)
    (h : l.find? (fun x => decide (x.status = JobStatus.pending)) = some j) :
    j.status = JobStatus.pending ∧
      ∀ j' ∈ l, j'.status = JobStatus.pending → j'.createdAt ≤ j.createdAt := by
  induction l with
  | nil => simp at h
  | cons x t ih =>
    rw [List.find?_cons] at h
    by_cases hx : x.status = JobStatus.pending
    · simp [hx] at h
      subst h
      refine ⟨hx, ?_⟩
      intro j' hj' _
      rcases List.mem_cons.mp hj' with rfl | hmem
      · exact le_refl _
      · exact (List.pairwise_cons.mp hs).1 j' hmem
    · simp [hx] at h
      have := ih (List.pairwise_cons.mp hs).2 h
      refine ⟨this.1, ?_⟩
      intro j' hj' hp
      rcases List.mem_cons.mp hj' with rfl | hmem
      · exact absurd hp hx
      · exact this.2 j' hmem hp

end Queue

/-- C2: the claim states the worker picks the job with the earliest
created_at.  At a store holding two pending jobs, `_get_next_job`
returns `jobB`, the one with the strictly larger created_at, because
`list_jobs` orders by `created_at DESC`; the claim is false. -/
theorem C2_counterexample :
    Queue.getNextJob [Queue.jobB, Queue.jobA] = some Queue.jobB ∧
      Queue.jobA.status = Queue.JobStatus.pending ∧
      Queue.jobA.createdAt < Queue.jobB.createdAt ∧
      Queue.jobB ≠ Queue.jobA := by
  exact ⟨Queue.getNextJob_concrete, by decide, by decide, by decide⟩

/-- C2 (amended): `_get_next_job` returns a pending job whose created_at
is maximal among the pending jobs of `list_jobs(limit=10)` — the worker
prefers the most recently created pending job, and only looks at the 10
most recent jobs. -/
theorem C2_next_job_is_newest_pending (jobs : List Queue.Job) (j : Queue.Job)
    (h : Queue.getNextJob jobs = some j) :
    j.status = Queue.JobStatus.pending ∧
      ∀ j' ∈ Queue.listJobs jobs 10, j'.status = Queue.JobStatus.pending →
        j'.createdAt ≤ j.createdAt := by
  have hsorted : (Queue.listJobs jobs 10).Pairwise
      (fun a b => b.createdAt ≤ a.createdAt) := by
    have h1 : (jobs.mergeSort (fun a b => decide (b.createdAt ≤ a.createdAt))).Pairwise
        (fun a b => (decide (b.createdAt ≤ a.createdAt)) = true) := by
      apply List.sorted_mergeSort
      · intro a b c hab hbc
        simp only [decide_eq_true_eq] at *
        omega
      · intro a b
        rcases Nat.le_total b.createdAt a.createdAt with h' | h' <;> simp [h']
    have h2 := h1.sublist (List.take_sublist 10 _)
    exact h2.imp (by intro a b hab; simpa using hab)
  exact Queue.find_pending_max _ hsorted j h

/-- C2 witness: instantiating the amended theorem at the concrete
two-job store. -/
theorem C2_next_job_is_newest_pending_witness :
    Queue.jobB.status = Queue.JobStatus.pending ∧
      ∀ j' ∈ Queue.listJobs [Queue.jobB, Queue.jobA] 10,
        j'.status = Queue.JobStatus.pending → j'.createdAt ≤ Queue.jobB.createdAt :=
  C2_next_job_is_newest_pending [Queue.jobB, Queue.jobA] Queue.jobB
    Queue.getNextJob_concrete

namespace Queue

/-- The item-rewriting function applied by `cancel_job` to every row of
the job: pending items become failed with a fresh `updated_at`, all
other items stay as they are. -/
def cancelItem (now : Nat) (i : Item) : Item :=
  if i.status = ItemStatus.pending then
    { i with status := ItemStatus.failed, updatedAt := now }
  else i

theorem cancelJob_items_eq (s : JobState) (now : Nat)
    (h : ¬(s.status = JobStatus.completed ∨ s.status = JobStatus.cancelled)) :
    (cancelJob s now).2.items = s.items.map (cancelItem now) := by
  simp [cancelJob, h, updateJobCounts, cancelItem]

/-- After the cancel rewrite, the failed count equals old failed plus
old pending. -/
theorem countP_cancel_failed (l : List Item) (now : Nat) :
    (l.map (cancelItem now)).countP (fun i => decide (i.status = ItemStatus.failed)) =
      l.countP (fun i => decide (i.status = ItemStatus.failed)) +
        l.countP (fun i => decide (i.status = ItemStatus.pending)) := by
  induction l with
  | nil => simp
  | cons x t ih =>
    by_cases hx : x.status = ItemStatus.pending
    · simp [List.countP_cons, cancelItem, hx, ih]
      omega
    · by_cases hf : x.status = ItemStatus.failed
      · simp [List.countP_cons, cancelItem, hx, hf, ih]
        omega
      · simp [List.countP_cons, cancelItem, hx, hf, ih]

/-- The cancel rewrite leaves the count of any status other than pending
and failed unchanged. -/
theorem countP_cancel_preserved (l : List Item) (now : Nat) (st : ItemStatus)
    (h1 : st ≠ ItemStatus.pending) (h2 : st ≠ ItemStatus.failed) :
    (l.map (cancelItem now)).countP (fun i => decide (i.status = st)) =
      l.countP (fun i => decide (i.status = st)) := by
  induction l with
  | nil => simp
  | cons x t ih =>
    by_cases hx : x.status = ItemStatus.pending
    · have hne : ¬ x.status = st := by
        rw [hx]; exact fun hc => h1 hc.symm
      have hne2 : ¬ ItemStatus.pending = st := fun hc => h1 hc.symm
      have hne3 : ¬ ItemStatus.failed = st := fun hc => h2 hc.symm
      simp [List.countP_cons, cancelItem, hx, ih, hne, hne2, hne3]
    · simp [List.countP_cons, cancelItem, hx, ih]

/-- No item is pending after the cancel rewrite. -/
theorem countP_cancel_pending (l : List Item) (now : Nat) :
    (l.map (cancelItem now)).countP (fun i => decide (i.status = ItemStatus.pending)) = 0 := by
  induction l with
  | nil => simp
  | cons x t ih =>
    by_cases hx : x.status = ItemStatus.pending <;>
      simp [List.countP_cons, cancelItem, hx, ih]

/-! Concrete store used by the C4 theorems: a job in status `failed`
with one pending item carrying no error message. -/

def itemP : Item := { id := 1, status := ItemStatus.pending, errorMessage := none, updatedAt := 0 }

def sFailedJob : JobState :=
  { status := JobStatus.failed, completedAt := some 3, items := [itemP],
    totalItems := 1, completedItems := 0, successCount := 0,
    skippedCount := 0, failedCount := 0 }

end Queue

/-- C4: the claim states `cancel_job` is a no-op on every terminal job
(completed, failed, or cancelled) and records a distinguished
"cancelled" error on the items it fails.  On a job in status `failed`
the code is not a no-op: it cancels the job; and the pending item it
sets to failed keeps `error_message = None` — no cancelled error is
written.  The claim is false on both points. -/
theorem C4_counterexample :
    (Queue.cancelJob Queue.sFailedJob 5).1 = true ∧
      (Queue.cancelJob Queue.sFailedJob 5).2.status = Queue.JobStatus.cancelled ∧
      (Queue.cancelJob Queue.sFailedJob 5).2 ≠ Queue.sFailedJob ∧
      ((Queue.cancelJob Queue.sFailedJob 5).2.items.map (fun i => i.errorMessage)) = [none] := by
  refine ⟨by decide, by decide, by decide, by decide⟩

/-- C4 (amended): `cancel_job` is a no-op exactly on jobs in status
completed or cancelled (a failed job is cancelled like a non-terminal
one); on every other job it sets each pending item to failed without
writing any error message, leaves the other items untouched, marks the
job cancelled with `completed_at` set, and recomputes the counts (failed
gains the old pending count, success and skipped counts are unchanged,
no pending item remains). -/
theorem C4_cancelJob_spec (s : Queue.JobState) (now : Nat) :
    ((s.status = Queue.JobStatus.completed ∨ s.status = Queue.JobStatus.cancelled) →
      Queue.cancelJob s now = (false, s)) ∧
    (¬(s.status = Queue.JobStatus.completed ∨ s.status = Queue.JobStatus.cancelled) →
      (Queue.cancelJob s now).1 = true ∧
      (Queue.cancelJob s now).2.status = Queue.JobStatus.cancelled ∧
      (Queue.cancelJob s now).2.completedAt = some now ∧
      (Queue.cancelJob s now).2.items = s.items.map (Queue.cancelItem now) ∧
      (∀ i ∈ s.items, i.status = Queue.ItemStatus.pending →
        { i with status := Queue.ItemStatus.failed, updatedAt := now } ∈
          (Queue.cancelJob s now).2.items ∧
        (Queue.cancelItem now i).errorMessage = i.errorMessage) ∧
      (∀ i ∈ s.items, i.status ≠ Queue.ItemStatus.pending →
        i ∈ (Queue.cancelJob s now).2.items) ∧
      (Queue.cancelJob s now).2.items.countP
        (fun i => decide (i.status = Queue.ItemStatus.pending)) = 0 ∧
      (Queue.cancelJob s now).2.failedCount =
        s.items.countP (fun i => decide (i.status = Queue.ItemStatus.failed)) +
          s.items.countP (fun i => decide (i.status = Queue.ItemStatus.pending)) ∧
      (Queue.cancelJob s now).2.successCount =
        s.items.countP (fun i => decide (i.status = Queue.ItemStatus.success)) ∧
      (Queue.cancelJob s now).2.skippedCount =
        s.items.countP (fun i => decide (i.status = Queue.ItemStatus.skipped))) := by
  constructor
  · intro h
    simp [Queue.cancelJob, h]
  · intro h
    have hitems := Queue.cancelJob_items_eq s now h
    refine ⟨by simp [Queue.cancelJob, h], by simp [Queue.cancelJob, h, Queue.updateJobCounts],
      by simp [Queue.cancelJob, h, Queue.updateJobCounts], hitems, ?_, ?_, ?_, ?_, ?_, ?_⟩
    · intro i hi hp
      constructor
      · rw [hitems]
        have : Queue.cancelItem now i =
            { i with status := Queue.ItemStatus.failed, updatedAt := now } := by
          simp [Queue.cancelItem, hp]
        exact this ▸ List.mem_map_of_mem _ hi
      · simp [Queue.cancelItem, hp]
    · intro i hi hp
      rw [hitems]
      have : Queue.cancelItem now i = i := by
        simp [Queue.cancelItem, hp]
      exact this ▸ List.mem_map_of_mem _ hi
    · rw [hitems]; exact Queue.countP_cancel_pending s.items now
    · have : (Queue.cancelJob s now).2.failedCount =
          ((Queue.cancelJob s now).2.items).countP
            (fun i => decide (i.status = Queue.ItemStatus.failed)) := by
        simp [Queue.cancelJob, h, Queue.updateJobCounts]
      rw [this, hitems]
      exact Queue.countP_cancel_failed s.items now
    · have : (Queue.cancelJob s now).2.successCount =
          ((Queue.cancelJob s now).2.items).countP
            (fun i => decide (i.status = Queue.ItemStatus.success)) := by
        simp [Queue.cancelJob, h, Queue.updateJobCounts]
      rw [this, hitems]
      exact Queue.countP_cancel_preserved s.items now _ (by decide) (by decide)
    · have : (Queue.cancelJob s now).2.skippedCount =
          ((Queue.cancelJob s now).2.items).countP
            (fun i => decide (i.status = Queue.ItemStatus.skipped)) := by
        simp [Queue.cancelJob, h, Queue.updateJobCounts]
      rw [this, hitems]
      exact Queue.countP_cancel_preserved s.items now _ (by decide) (by decide)

namespace Tmpl

/-- One element of `string.Formatter().parse`: either a literal
character or a replacement field `(field_name, conversion, format_spec)`.
Strings are modelled as `List Char`. -/
inductive Part where
  | lit (c : Char)
  | field (name : List Char) (cv : Option Char) (spec : List Char)
deriving DecidableEq, Repr

/-- Skip to the first `]` (CPython `parse_field` consumes an index
bracket without interpreting its contents); returns the bracket body and
the remainder, or `none` when the string ends first. -/
def spanRBracket : List Char → Option (List Char × List Char)
  | [] => none
  | c :: rest =>
    if c = ']' then some ([], rest)
    else (spanRBracket rest).map (fun p => (c :: p.1, p.2))

/-- CPython `parse_field`, field-name phase: collect characters until a
top-level `}`, `:` or `!`; `[` skips an index bracket; a nested `{` is a
ValueError; running out of input is a ValueError. -/
def parseFieldName (fuel : Nat) (acc : List Char) (cs : List Char) :
    Except Unit (List Char × Char × List Char) :=
  match fuel with
  | 0 => Except.error ()
  | fuel + 1 =>
    match cs with
    | [] => Except.error ()
    | c :: rest =>
      if c = '{' then Except.error ()
      else if c = '[' then
        match spanRBracket rest with
        | none => Except.error ()
        | some (inner, rest1) =>
          parseFieldName fuel (acc ++ '[' :: (inner ++ [']'])) rest1
      else if c = '}' ∨ c = ':' ∨ c = '!' then Except.ok (acc, c, rest)
      else parseFieldName fuel (acc ++ [c]) rest

/-- CPython format-spec phase: consume until the matching `}`, counting
nested braces; the spec text is returned raw. -/
def parseSpec (acc : List Char) (depth : Nat) : List Char → Except Unit (List Char × List Char)
  | [] => Except.error ()
  | c :: rest =>
    if c = '{' then parseSpec (acc ++ [c]) (depth + 1) rest
    else if c = '}' then
      match depth with
      | 0 => Except.ok (acc, rest)
      | d + 1 => parseSpec (acc ++ [c]) d rest
    else parseSpec (acc ++ [c]) depth rest

/-- `string.Formatter().parse`: literal text with `{{`/`}}` escapes, a
stray `}` is a ValueError, `{` opens a replacement field with optional
`!conversion` and `:format_spec`. -/
def parseParts (fuel : Nat) (cs : List Char) : Except Unit (List Part) :=
  match fuel with
  | 0 => Except.error ()
  | fuel + 1 =>
    match cs with
    | [] => Except.ok []
    | '{' :: '{' :: rest => (parseParts fuel rest).map (Part.lit '{' :: ·)
    | '}' :: '}' :: rest => (parseParts fuel rest).map (Part.lit '}' :: ·)
    | '}' :: _ => Except.error ()
    | '{' :: rest =>
      match parseFieldName (rest.length + 1) [] rest with
      | Except.error _ => Except.error ()
      | Except.ok (nm, term, rest1) =>
        if term = '}' then
          (parseParts fuel rest1).map (Part.field nm none [] :: ·)
        else if term = '!' then
          match rest1 with
          | c :: ':' :: rest2 =>
            match parseSpec [] 0 rest2 with
            | Except.error _ => Except.error ()
            | Except.ok (sp, rest3) =>
              (parseParts fuel rest3).map (Part.field nm (some c) sp :: ·)
          | c :: '}' :: rest2 =>
            (parseParts fuel rest2).map (Part.field nm (some c) [] :: ·)
          | _ => Except.error ()
        else
          match parseSpec [] 0 rest1 with
          | Except.error _ => Except.error ()
          | Except.ok (sp, rest2) =>
            (parseParts fuel rest2).map (Part.field nm none sp :: ·)
    | c :: rest => (parseParts fuel rest).map (Part.lit c :: ·)

/-- `ALLOWED_TEMPLATE_VARS` from `transfer_settings.py`. -/
def allowedVars : List (List Char) :=
  ["label_id".data, "sport".data, "sport_type".data, "start_time".data,
   "start_local".data, "duration_seconds".data, "duration_formatted".data,
   "distance_km".data, "distance_m".data, "name".data, "calories".data]

/-- The head of `split(sep)` at a single-character separator is the run
of characters before the first occurrence of `sep`. -/
def firstSeg (sep : Char) (cs : List Char) : List Char :=
  cs.takeWhile (fun c => c ≠ sep)

/-- `field_name.split(".")[0].split("[")[0].split(":")[0]` from
`TemplateRenderer._validate_template`. -/
def baseName (f : List Char) : List Char :=
  firstSeg ':' (firstSeg '[' (firstSeg '.' f))

/-- The per-field check of `_validate_template`: an empty base name is
skipped (`if base_name and ...`), otherwise the base must be in the
whitelist. -/
def checkPart : Part → Bool
  | Part.lit _ => true
  | Part.field nm _ _ => (baseName nm).isEmpty || allowedVars.contains (baseName nm)

/-- `TemplateRenderer._validate_template`, run at renderer construction:
parse the template (a parse ValueError also rejects) and check every
field's base name against the whitelist. -/
def validateTemplate (t : List Char) : Bool :=
  match parseParts (t.length + 1) t with
  | Except.error _ => false
  | Except.ok parts => parts.all checkPart

/-- The context filter in `TemplateRenderer.render`:
`{k: v for k, v in context.items() if k in ALLOWED_TEMPLATE_VARS}`,
with the dict modelled as a partial function from keys. -/
def safeCtx {V : Type} (ctx : List Char → Option V) : List Char → Option V :=
  fun k => if k ∈ allowedVars then ctx k else none

/-- CPython `get_field` looks the *first* component of the field name
(text before the first `.` or `[`) up in the mapping; the rest is the
attribute/index chain. -/
def lookupBase (f : List Char) : List Char :=
  f.takeWhile (fun c => c ≠ '.' ∧ c ≠ '[')

/-- The attribute/index chain after the looked-up component. -/
def fieldRest (f : List Char) : List Char :=
  f.drop (lookupBase f).length

/-- `str.format_map` over parsed parts.  Looking up a missing key is a
KeyError (`Except.error`).  Applying the attribute/index chain, the
conversion and the format spec to the looked-up value is delegated to
`fe`, which also receives the (filtered) mapping because a nested spec
may contain further replacement fields; `fe` may fail, modelling any
exception during formatting. -/
def evalParts {V : Type} (fe : (List Char → Option V) → V → List Char → Option Char →
    List Char → Except Unit (List Char)) (ctx : List Char → Option V) :
    List Part → Except Unit (List Char)
  | [] => Except.ok []
  | Part.lit c :: rest =>
    (evalParts fe ctx rest).map (fun s => c :: s)
  | Part.field nm cv sp :: rest =>
    match ctx (lookupBase nm) with
    | none => Except.error ()
    | some v =>
      match fe ctx v (fieldRest nm) cv sp with
      | Except.error e => Except.error e
      | Except.ok s => (evalParts fe ctx rest).map (fun t => s ++ t)

/-- `TemplateRenderer.render`: filter the context to the whitelist, run
`format_map`; a KeyError or any other exception (including a parse
ValueError) is caught and the raw template string is returned. -/
def render {V : Type} (fe : (List Char → Option V) → V → List Char → Option Char →
    List Char → Except Unit (List Char)) (tmpl : List Char)
    (ctx : List Char → Option V) : List Char :=
  match parseParts (tmpl.length + 1) tmpl with
  | Except.error _ => tmpl
  | Except.ok parts =>
    match evalParts fe (safeCtx ctx) parts with
    | Except.ok s => s
    | Except.error _ => tmpl

/-- A field passes `checkPart` iff its base name is empty or
whitelisted. -/
theorem checkPart_field_iff (nm : List Char) (cv : Option Char) (sp : List Char) :
    checkPart (Part.field nm cv sp) = true ↔
      (baseName nm = [] ∨ baseName nm ∈ allowedVars) := by
  simp [checkPart, List.isEmpty_iff]

/-- If some part of the template has a field whose base-name lookup in
the filtered context misses, `format_map` raises (KeyError or an earlier
failure), never returning a value. -/
theorem evalParts_error_of_missing {V : Type}
    (fe : (List Char → Option V) → V → List Char → Option Char → List Char →
      Except Unit (List Char))
    (ctx : List Char → Option V) (parts : List Part) (nm : List Char)
    (cv : Option Char) (sp : List Char) (hmem : Part.field nm cv sp ∈ parts)
    (hmiss : ctx (lookupBase nm) = none) :
    evalParts fe ctx parts = Except.error () := by
  induction parts with
  | nil => simp at hmem
  | cons p rest ih =>
    rcases List.mem_cons.mp hmem with rfl | hmem'
    · simp [evalParts, hmiss]
    · cases p with
      | lit c => simp [evalParts, ih hmem', Except.map]
      | field nm2 cv2 sp2 =>
        cases hl : ctx (lookupBase nm2) with
        | none => simp [evalParts, hl]
        | some v =>
          cases hf : fe ctx v (fieldRest nm2) cv2 sp2 with
          | error e => simp [evalParts, hl, hf]
          | ok s => simp [evalParts, hl, hf, ih hmem', Except.map]

/-! Concrete inputs for the template theorems. -/

/-- A formatting callback that always succeeds with the empty string. -/
def feEmpty : (List Char → Option Unit) → Unit → List Char → Option Char → List Char →
    Except Unit (List Char) :=
  fun _ _ _ _ _ => Except.ok []

/-- The template `{name.upper}`: a whitelisted base name with an
attribute access. -/
def tmplAttr : List Char := "\x7bname.upper\x7d".data

/-- The template `{name} x`, rendered with an empty context. -/
def tmplMissing : List Char := "\x7bname\x7d x".data

end Tmpl

/-- C6: the claim states any template containing attribute access is
rejected at template-validation time.  The template `{name.upper}`
parses to a single field whose name contains an attribute access, yet
`_validate_template` accepts it, because only the base name before the
first `.`/`[` is checked; the claim is false. -/
theorem C6_counterexample :
    Tmpl.validateTemplate Tmpl.tmplAttr = true ∧
      Tmpl.parseParts (Tmpl.tmplAttr.length + 1) Tmpl.tmplAttr =
        Except.ok [Tmpl.Part.field ("name.upper".data) none []] ∧
      '.' ∈ ("name.upper".data) := by
  refine ⟨by decide, rfl, by decide⟩

/-- C6 (amended): template validation accepts a template exactly when it
parses under the format grammar and the *base name* of every field
reference (the text before the first `.`, `[` or `:`) is empty or in the
closed whitelist; unknown base names are rejected at validation time
(renderer construction), but attribute or index access on a whitelisted
base name is accepted, and so is any format spec. -/
theorem C6_validate_iff (t : List Char) :
    Tmpl.validateTemplate t = true ↔
      ∃ parts, Tmpl.parseParts (t.length + 1) t = Except.ok parts ∧
        ∀ nm cv sp, Tmpl.Part.field nm cv sp ∈ parts →
          (Tmpl.baseName nm = [] ∨ Tmpl.baseName nm ∈ Tmpl.allowedVars) := by
  unfold Tmpl.validateTemplate
  cases hp : Tmpl.parseParts (t.length + 1) t with
  | error e => simp
  | ok parts =>
    simp only [Except.ok.injEq]
    constructor
    · intro hall
      refine ⟨parts, rfl, ?_⟩
      intro nm cv sp hmem
      exact (Tmpl.checkPart_field_iff nm cv sp).mp (List.all_eq_true.mp hall _ hmem)
    · rintro ⟨parts2, rfl, hfields⟩
      apply List.all_eq_true.mpr
      intro p hmem
      cases p with
      | lit c => rfl
      | field nm cv sp =>
        exact (Tmpl.checkPart_field_iff nm cv sp).mpr (hfields nm cv sp hmem)

/-- C7: the claim states a missing context variable yields the empty
string in the output.  Rendering the validated template `{name} x`
against an empty context returns the raw template `{name} x`, not
`" x"`: a missing key raises KeyError and the handler falls back to the
whole raw template; the claim is false. -/
theorem C7_counterexample :
    Tmpl.validateTemplate Tmpl.tmplMissing = true ∧
      Tmpl.render Tmpl.feEmpty Tmpl.tmplMissing (fun _ => none) = Tmpl.tmplMissing ∧
      Tmpl.tmplMissing ≠ (" x".data) := by
  refine ⟨by decide, rfl, by decide⟩

/-- C7 (amended): rendering is total — it either returns the successful
`format_map` output or falls back to the raw template string; in
particular whenever any referenced field's base name is missing from the
filtered context, the *raw template* (not an empty-string substitution)
is returned. -/
theorem C7_render_total {V : Type}
    (fe : (List Char → Option V) → V → List Char → Option Char → List Char →
      Except Unit (List Char))
    (tmpl : List Char) (ctx : List Char → Option V) :
    (Tmpl.render fe tmpl ctx = tmpl ∨
      ∃ parts s, Tmpl.parseParts (tmpl.length + 1) tmpl = Except.ok parts ∧
        Tmpl.evalParts fe (Tmpl.safeCtx ctx) parts = Except.ok s ∧
        Tmpl.render fe tmpl ctx = s) ∧
    (∀ parts nm cv sp, Tmpl.parseParts (tmpl.length + 1) tmpl = Except.ok parts →
      Tmpl.Part.field nm cv sp ∈ parts →
      Tmpl.safeCtx ctx (Tmpl.lookupBase nm) = none →
      Tmpl.render fe tmpl ctx = tmpl) := by
  constructor
  · rcases hp : Tmpl.parseParts (tmpl.length + 1) tmpl with e | parts
    · left
      unfold Tmpl.render
      rw [hp]
    · rcases he : Tmpl.evalParts fe (Tmpl.safeCtx ctx) parts with e | s
      · left
        unfold Tmpl.render
        rw [hp]
        simp [he]
      · right
        refine ⟨parts, s, rfl, he, ?_⟩
        unfold Tmpl.render
        rw [hp]
        simp [he]
  · intro parts nm cv sp hp hmem hmiss
    unfold Tmpl.render
    rw [hp]
    simp [Tmpl.evalParts_error_of_missing fe _ parts nm cv sp hmem hmiss]

/-- C7 witness: the amended theorem applied to `{name} x` with the empty
context. -/
theorem C7_render_total_witness :
    Tmpl.render Tmpl.feEmpty Tmpl.tmplMissing (fun _ => none) = Tmpl.tmplMissing :=
  (C7_render_total Tmpl.feEmpty Tmpl.tmplMissing (fun _ => none)).2
    [Tmpl.Part.field ("name".data) none [], Tmpl.Part.lit ' ', Tmpl.Part.lit 'x']
    ("name".data) none [] rfl (by decide) rfl

/-- C10: the rendered output depends only on the whitelisted context
variables: two contexts that agree on every whitelisted key render
identically, because the context is filtered to the whitelist before
substitution (and the filtered mapping is all the formatting machinery
ever sees). -/
theorem C10_render_whitelist_only {V : Type}
    (fe : (List Char → Option V) → V → List Char → Option Char → List Char →
      Except Unit (List Char))
    (tmpl : List Char) (ctx1 ctx2 : List Char → Option V)
    (h : ∀ k, k ∈ Tmpl.allowedVars → ctx1 k = ctx2 k) :
    Tmpl.render fe tmpl ctx1 = Tmpl.render fe tmpl ctx2 := by
  have hctx : Tmpl.safeCtx ctx1 = Tmpl.safeCtx ctx2 := by
    funext k
    unfold Tmpl.safeCtx
    by_cases hk : k ∈ Tmpl.allowedVars
    · simp [hk, h k hk]
    · simp [hk]
  unfold Tmpl.render
  rw [hctx]

/-- C10 witness: a context holding only a non-whitelisted key renders
exactly like the empty context. -/
theorem C10_render_whitelist_only_witness :
    Tmpl.render Tmpl.feEmpty Tmpl.tmplMissing
        (fun k => if k = ("evil".data) then some () else none) =
      Tmpl.render Tmpl.feEmpty Tmpl.tmplMissing (fun _ => none) :=
  C10_render_whitelist_only Tmpl.feEmpty Tmpl.tmplMissing _ _ (by decide)

namespace Settings

/-- `retry` block of the settings document. -/
structure RetryCfg where
  maxAttempts : Int
  baseDelaySeconds : Rat
  maxDelaySeconds : Rat
deriving DecidableEq, Repr

/-- `naming` block; templates are strings (`List Char`). -/
structure NamingCfg where
  titleTemplate : List Char
  descriptionTemplate : List Char
deriving DecidableEq, Repr

/-- `privacy` block. -/
structure PrivacyCfg where
  visibility : String
deriving DecidableEq, Repr

/-- `gear` block. -/
structure GearCfg where
  enabled : Bool
  gearId : Option String
deriving DecidableEq, Repr

/-- The full settings document of `get_default_settings`. -/
structure SettingsDoc where
  version : Int
  concurrency : Int
  retry : RetryCfg
  naming : NamingCfg
  privacy : PrivacyCfg
  sportMapping : List (Int × String)
  gear : GearCfg
deriving DecidableEq, Repr

/-- A partial settings document as received by `save_settings`: every
field may be absent.  (A field of the wrong JSON type is outside this
typed embedding; the `isinstance` arms of the validator are the
corresponding type constraints.) -/
structure PartialRetry where
  maxAttempts : Option Int
  baseDelaySeconds : Option Rat
  maxDelaySeconds : Option Rat
deriving DecidableEq, Repr

structure PartialNaming where
  titleTemplate : Option (List Char)
  descriptionTemplate : Option (List Char)
deriving DecidableEq, Repr

structure PartialPrivacy where
  visibility : Option String
deriving DecidableEq, Repr

structure PartialGear where
  enabled : Option Bool
  gearId : Option (Option String)
deriving DecidableEq, Repr

structure PartialSettings where
  version : Option Int
  concurrency : Option Int
  retry : Option PartialRetry
  naming : Option PartialNaming
  privacy : Option PartialPrivacy
  sportMapping : Option (List (Int × String))
  gear : Option PartialGear
deriving DecidableEq, Repr

/-- `get_default_settings`. -/
def getDefaultSettings : SettingsDoc :=
  { version := 1
    concurrency := 2
    retry := { maxAttempts := 3, baseDelaySeconds := 1, maxDelaySeconds := 60 }
    naming :=
      { titleTemplate := "\x7bsport\x7d \x7bstart_local:%Y-%m-%d %H:%M\x7d".data
        descriptionTemplate := [] }
    privacy := { visibility := "default" }
    sportMapping := []
    gear := { enabled := false, gearId := none } }

/-- `TransferSettingsService._validate_settings`: field-by-field checks
of the partial document, collecting a field-path-keyed error map in
source order.  A missing field is never an error. -/
def validateSettings (p : PartialSettings) : List (String × String) :=
  (match p.concurrency with
   | none => []
   | some c =>
     if c < 1 ∨ c > 10 then [("concurrency", "Must be an integer between 1 and 10")]
     else []) ++
  (match p.retry with
   | none => []
   | some r =>
     (match r.maxAttempts with
      | none => []
      | some n =>
        if n < 1 ∨ n > 10 then
          [("retry.max_attempts", "Must be an integer between 1 and 10")]
        else []) ++
     (match r.baseDelaySeconds with
      | none => []
      | some x =>
        if x < 0 ∨ x > 60 then
          [("retry.base_delay_seconds", "Must be a number between 0 and 60")]
        else []) ++
     (match r.maxDelaySeconds with
      | none => []
      | some x =>
        if x < 1 ∨ x > 300 then
          [("retry.max_delay_seconds", "Must be a number between 1 and 300")]
        else [])) ++
  (match p.naming with
   | none => []
   | some n =>
     (match n.titleTemplate with
      | none => []
      | some t =>
        if t.length > 200 then [("naming.title_template", "Must be at most 200 characters")]
        else if Tmpl.validateTemplate t then []
        else [("naming.title_template", "Template variable is not allowed")]) ++
     (match n.descriptionTemplate with
      | none => []
      | some t =>
        if t.length > 1000 then
          [("naming.description_template", "Must be at most 1000 characters")]
        else if Tmpl.validateTemplate t then []
        else [("naming.description_template", "Template variable is not allowed")])) ++
  (match p.privacy with
   | none => []
   | some pr =>
     match pr.visibility with
     | none => []
     | some v =>
       if v = "default" ∨ v = "private" ∨ v = "public" then []
       else [("privacy.visibility", "Must be one of: default, private, public")])

/-- `TransferSettingsService._normalize_settings`: start from the
*defaults* (`deepcopy(get_default_settings())`), then for every
top-level key present in the partial document either `update` the
default sub-dict with the provided entries (one level deep) or
overwrite the scalar; finally force `version` to the current schema
version. -/
def normalizeSettings (p : PartialSettings) : SettingsDoc :=
  let d := getDefaultSettings
  { version := 1
    concurrency := p.concurrency.getD d.concurrency
    retry :=
      match p.retry with
      | none => d.retry
      | some r =>
        { maxAttempts := r.maxAttempts.getD d.retry.maxAttempts
          baseDelaySeconds := r.baseDelaySeconds.getD d.retry.baseDelaySeconds
          maxDelaySeconds := r.maxDelaySeconds.getD d.retry.maxDelaySeconds }
    naming :=
      match p.naming with
      | none => d.naming
      | some n =>
        { titleTemplate := n.titleTemplate.getD d.naming.titleTemplate
          descriptionTemplate := n.descriptionTemplate.getD d.naming.descriptionTemplate }
    privacy :=
      match p.privacy with
      | none => d.privacy
      | some pr => { visibility := pr.visibility.getD d.privacy.visibility }
    sportMapping := p.sportMapping.getD d.sportMapping
    gear :=
      match p.gear with
      | none => d.gear
      | some g =>
        { enabled := g.enabled.getD d.gear.enabled
          gearId := g.gearId.getD d.gear.gearId } }

/-- `TransferSettingsService.save_settings` acting on the stored
document: validate the partial input; on errors return them and leave
the store untouched; otherwise normalize (merge into defaults), store
and return the normalized document.  The pair is
(returned result, stored document after the call). -/
def saveSettings (current : SettingsDoc) (p : PartialSettings) :
    Except (List (String × String)) SettingsDoc × SettingsDoc :=
  match validateSettings p with
  | [] => (Except.ok (normalizeSettings p), normalizeSettings p)
  | errs => (Except.error errs, current)

/-- Modelled from the spec (for comparison only): the claim's reading of
`save`, which deep-merges the partial document into the *current stored
settings* rather than into the defaults. -/
def normalizeSettingsSpec (current : SettingsDoc) (p : PartialSettings) : SettingsDoc :=
  { version := 1
    concurrency := p.concurrency.getD current.concurrency
    retry :=
      match p.retry with
      | none => current.retry
      | some r =>
        { maxAttempts := r.maxAttempts.getD current.retry.maxAttempts
          baseDelaySeconds := r.baseDelaySeconds.getD current.retry.baseDelaySeconds
          maxDelaySeconds := r.maxDelaySeconds.getD current.retry.maxDelaySeconds }
    naming :=
      match p.naming with
      | none => current.naming
      | some n =>
        { titleTemplate := n.titleTemplate.getD current.naming.titleTemplate
          descriptionTemplate := n.descriptionTemplate.getD current.naming.descriptionTemplate }
    privacy :=
      match p.privacy with
      | none => current.privacy
      | some pr => { visibility := pr.visibility.getD current.privacy.visibility }
    sportMapping := p.sportMapping.getD current.sportMapping
    gear :=
      match p.gear with
      | none => current.gear
      | some g =>
        { enabled := g.enabled.getD current.gear.enabled
          gearId := g.gearId.getD current.gear.gearId } }

/-- A stored document whose concurrency was previously saved as 5. -/
def cur5 : SettingsDoc := { getDefaultSettings with concurrency := 5 }

/-- The empty partial update. -/
def pEmpty : PartialSettings :=
  { version := none, concurrency := none, retry := none, naming := none,
    privacy := none, sportMapping := none, gear := none }

/-- A partial update with an out-of-range concurrency. -/
def pBad : PartialSettings := { pEmpty with concurrency := some 0 }

end Settings

/-- C5: the claim states save deep-merges the partial document into the
*current stored settings*.  Saving the empty partial over a store whose
concurrency is 5 commits concurrency 2 (the default): `_normalize_settings`
merges into `get_default_settings()`, not into the stored document, so
every omitted field is reset; the claim is false. -/
theorem C5_counterexample :
    (Settings.saveSettings Settings.cur5 Settings.pEmpty).1 =
        Except.ok Settings.getDefaultSettings ∧
      Settings.getDefaultSettings.concurrency = 2 ∧
      Settings.cur5.concurrency = 5 ∧
      (Settings.normalizeSettingsSpec Settings.cur5 Settings.pEmpty).concurrency = 5 ∧
      (Settings.saveSettings Settings.cur5 Settings.pEmpty).2 ≠ Settings.cur5 := by
  refine ⟨rfl, by decide, by decide, by decide, by decide⟩

/-- C5 (amended): save validates the partial document field-by-field
and commits only when the error map is empty; on failure it returns the
field-path-keyed error map and the stored settings are unchanged.  On
success the committed document is the partial merged one level deep
into the *defaults* (omitted fields revert to their default values),
with `version` forced to the current schema version; validated fields
are range-checked (shown here for concurrency and the title template). -/
theorem C5_save_spec (current : Settings.SettingsDoc) (p : Settings.PartialSettings) :
    (Settings.validateSettings p ≠ [] →
      Settings.saveSettings current p =
        (Except.error (Settings.validateSettings p), current)) ∧
    (Settings.validateSettings p = [] →
      Settings.saveSettings current p =
        (Except.ok (Settings.normalizeSettings p), Settings.normalizeSettings p) ∧
      (Settings.normalizeSettings p).version = 1 ∧
      (∀ c, p.concurrency = some c → 1 ≤ c ∧ c ≤ 10) ∧
      (∀ n t, p.naming = some n → n.titleTemplate = some t →
        t.length ≤ 200 ∧ Tmpl.validateTemplate t = true)) := by
  constructor
  · intro h
    unfold Settings.saveSettings
    cases hv : Settings.validateSettings p with
    | nil => exact absurd hv h
    | cons a l => rfl
  · intro h
    refine ⟨by unfold Settings.saveSettings; rw [h], rfl, ?_, ?_⟩
    · intro c hc
      unfold Settings.validateSettings at h
      simp only [hc, List.append_eq_nil] at h
      obtain ⟨⟨⟨h1, _⟩, _⟩, _⟩ := h
      by_contra hrange
      have hout : c < 1 ∨ c > 10 := by omega
      simp [hout] at h1
    · intro n t hn ht
      unfold Settings.validateSettings at h
      simp only [hn, ht, List.append_eq_nil] at h
      obtain ⟨⟨⟨_, _⟩, h4, _⟩, _⟩ := h
      by_cases hlen : t.length > 200
      · simp [hlen] at h4
      · refine ⟨by omega, ?_⟩
        by_contra hval
        simp [hlen, hval] at h4

/-- C5 witness: the amended theorem at the concrete store and both the
empty partial (commits defaults) and the out-of-range partial (store
unchanged). -/
theorem C5_save_spec_witness :
    (Settings.saveSettings Settings.cur5 Settings.pEmpty =
        (Except.ok (Settings.normalizeSettings Settings.pEmpty),
          Settings.normalizeSettings Settings.pEmpty) ∧
      (Settings.normalizeSettings Settings.pEmpty).version = 1 ∧
      (∀ c, Settings.pEmpty.concurrency = some c → 1 ≤ c ∧ c ≤ 10) ∧
      (∀ n t, Settings.pEmpty.naming = some n → n.titleTemplate = some t →
        t.length ≤ 200 ∧ Tmpl.validateTemplate t = true)) ∧
    Settings.saveSettings Settings.cur5 Settings.pBad =
      (Except.error (Settings.validateSettings Settings.pBad), Settings.cur5) :=
  ⟨(C5_save_spec Settings.cur5 Settings.pEmpty).2 (by decide),
    (C5_save_spec Settings.cur5 Settings.pBad).1 (by decide)⟩

namespace Upload

/-- One entry of the upload response's failure messages. -/
structure UploadMessage where
  code : Int
deriving DecidableEq, Repr

/-- One entry of `detailedImportResult.failures`. -/
structure UploadFailure where
  messages : List UploadMessage
  internalId : Option String
deriving DecidableEq, Repr

/-- `detailedImportResult` of the sink's upload endpoint: successes are
reduced to their `internalId`. -/
structure UploadResponse where
  successes : List String
  failures : List UploadFailure
deriving DecidableEq, Repr

/-- A sink activity as consumed by `_confirm_duplicate_by_time`:
`start` is the already-parsed start time in epoch seconds
(`_parse_garmin_activity_start` returning `None` is `none`), and the two
id keys the probe reads. -/
structure SinkActivity where
  activityId : Option String
  internalId : Option String
  start : Option Int
deriving DecidableEq, Repr

/-- Python `a or b` on optional strings: `a` when truthy (present and
non-empty), else `b`. -/
def pyOr (a b : Option String) : Option String :=
  match a with
  | some s => if s = "" then b else some s
  | none => b

/-- `best_delta is None or delta < best_delta`. -/
def probeBetter (acc : Option (Option String × Int)) (delta : Int) : Bool :=
  match acc with
  | none => true
  | some p => decide (delta < p.2)

/-- One iteration of the probe's selection loop: keep the candidate with
delta within the window and strictly smaller than the best so far. -/
def probeStep (st w : Int) (acc : Option (Option String × Int)) (act : SinkActivity) :
    Option (Option String × Int) :=
  match act.start with
  | none => acc
  | some a =>
    if |a - st| ≤ w ∧ probeBetter acc |a - st| = true then
      some (pyOr act.activityId act.internalId, |a - st|)
    else acc

/-- `GarminClient._confirm_duplicate_by_time`: with no start time the
probe gives up; otherwise scan the sink's activity list and return the
id of the activity whose start time is within the window with the
smallest absolute delta (first hit wins ties). -/
def confirmDuplicateByTime (startTime : Option Int) (w : Int)
    (acts : List SinkActivity) : Option String :=
  match startTime with
  | none => none
  | some st =>
    match acts.foldl (probeStep st w) none with
    | some (some i, _) => some i
    | some (none, _) => none
    | none => none

/-- `GarminClient.upload_fit`, response-handling phase: a success entry
wins; else a failure with message code 202 returns its `internalId`
(default the sentinel `"duplicate"`); any other failure is `None`;
an empty-ambiguous response (neither successes nor failures) invokes
the duplicate probe and returns its result. -/
def uploadFit (resp : UploadResponse) (startTime : Option Int) (w : Int)
    (sinkActs : List SinkActivity) : Option String :=
  match resp.successes with
  | i :: _ => some i
  | [] =>
    match resp.failures with
    | f :: _ =>
      match f.messages with
      | m :: _ =>
        if m.code = 202 then some (f.internalId.getD ("duplicate")) else none
      | [] => none
    | [] => confirmDuplicateByTime startTime w sinkActs

/-- The terminal fate of the upload stage of one item in
`TransferWorker._process_single_item`. -/
inductive ItemOutcome where
  | skippedDup
  | success (garminId : String)
  | retryFailure (msg : String)
deriving DecidableEq, Repr

/-- The worker's dispatch on `upload_fit`'s return value: the literal
sentinel `"duplicate"` means skipped; a falsy result (`None` or the
empty string) raises and becomes a retryable failure; any other id
proceeds to metadata apply and ends as success. -/
def dispatchUploadResult (garminId : Option String) : ItemOutcome :=
  match garminId with
  | some gid =>
    if gid = "duplicate" then ItemOutcome.skippedDup
    else if gid = "" then ItemOutcome.retryFailure ("Upload failed - no Garmin ID returned")
    else ItemOutcome.success gid
  | none => ItemOutcome.retryFailure ("Upload failed - no Garmin ID returned")

/-- Upload stage end to end: client response handling then worker
dispatch. -/
def processUploadStep (resp : UploadResponse) (startTime : Option Int) (w : Int)
    (sinkActs : List SinkActivity) : ItemOutcome :=
  dispatchUploadResult (uploadFit resp startTime w sinkActs)

/-- Soundness of the probe's fold: a returned candidate comes from some
activity of the list whose start time is within the window. -/
theorem probe_foldl_mem (st w : Int) (acts : List SinkActivity) :
    ∀ acc gid d, acts.foldl (probeStep st w) acc = some (gid, d) →
      acc = some (gid, d) ∨
        ∃ act ∈ acts, ∃ a, act.start = some a ∧ |a - st| ≤ w ∧
          pyOr act.activityId act.internalId = gid ∧ d = |a - st| := by
  induction acts with
  | nil =>
    intro acc gid d h
    exact Or.inl h
  | cons act rest ih =>
    intro acc gid d h
    rw [List.foldl_cons] at h
    rcases ih (probeStep st w acc act) gid d h with hstep | ⟨a2, ha2, w2⟩
    · cases hs : act.start with
      | none =>
        have hacc : probeStep st w acc act = acc := by
          simp [probeStep, hs]
        exact Or.inl (hacc ▸ hstep)
      | some a =>
        by_cases hc : |a - st| ≤ w ∧ probeBetter acc |a - st| = true
        · have heq : probeStep st w acc act =
              some (pyOr act.activityId act.internalId, |a - st|) := by
            simp [probeStep, hs, hc]
          rw [heq] at hstep
          have hpair := Option.some.inj hstep
          rw [Prod.mk.injEq] at hpair
          right
          exact ⟨act, List.mem_cons_self act rest, a, hs, hc.1, hpair.1, hpair.2.symm⟩
        · have hacc : probeStep st w acc act = acc := by
            simp only [probeStep, hs]
            rw [if_neg hc]
          exact Or.inl (hacc ▸ hstep)
    · exact Or.inr ⟨a2, List.mem_cons_of_mem act ha2, w2⟩

/-- Soundness of `_confirm_duplicate_by_time`: a confirmed id belongs to
a sink activity whose start time is within the window of the item's
start time. -/
theorem confirm_sound (startTime : Option Int) (w : Int) (acts : List SinkActivity)
    (gid : String) (h : confirmDuplicateByTime startTime w acts = some gid) :
    ∃ st, startTime = some st ∧
      ∃ act ∈ acts, ∃ a, act.start = some a ∧ |a - st| ≤ w ∧
        pyOr act.activityId act.internalId = some gid := by
  unfold confirmDuplicateByTime at h
  cases startTime with
  | none => simp at h
  | some st =>
    refine ⟨st, rfl, ?_⟩
    simp only [] at h
    rcases hf : acts.foldl (probeStep st w) none with _ | ⟨oid, d⟩
    · rw [hf] at h
      simp at h
    · rw [hf] at h
      cases oid with
      | none => simp at h
      | some i =>
        simp at h
        rcases probe_foldl_mem st w acts none (some i) d hf with hacc | ⟨act, hmem, a, ha, hw, hid, _⟩
        · simp at hacc
        · exact ⟨act, hmem, a, ha, hw, h ▸ hid⟩

/-! Concrete inputs for the C1 theorems. -/

/-- The empty-ambiguous upload response. -/
def respEmpty : UploadResponse := { successes := [], failures := [] }

/-- A sink activity 30 seconds away from the target start time 1000. -/
def actMatch : SinkActivity :=
  { activityId := some ("999"), internalId := none, start := some 1030 }

end Upload

/-- C1: the claim states that on an empty-ambiguous upload response a
probe match ends the item as status=skipped.  With the sink listing an
activity 30 s from the item's start (window 900 s), `upload_fit` returns
the matched id "999" — not the `"duplicate"` sentinel — so the worker
applies metadata and records status=success, not skipped; the claim is
false. -/
theorem C1_counterexample :
    Upload.uploadFit Upload.respEmpty (some 1000) 900 [Upload.actMatch] = some ("999") ∧
      Upload.processUploadStep Upload.respEmpty (some 1000) 900 [Upload.actMatch] =
        Upload.ItemOutcome.success ("999") ∧
      Upload.ItemOutcome.success ("999") ≠ Upload.ItemOutcome.skippedDup := by
  refine ⟨by decide, by decide, by decide⟩

/-- C1 (amended): when the upload response is empty-ambiguous the
client invokes the duplicate probe; if the probe finds a sink activity
whose start time is within the configured window, `upload_fit` returns
that activity's id and the item ends with status=success and sink_id
set to that id (after metadata apply); if no match is found the attempt
is a retryable failure. -/
theorem C1_ambiguous_upload (resp : Upload.UploadResponse) (startTime : Option Int)
    (w : Int) (acts : List Upload.SinkActivity)
    (hs : resp.successes = []) (hf : resp.failures = []) :
    (∀ gid, Upload.confirmDuplicateByTime startTime w acts = some gid →
      gid ≠ "duplicate" → gid ≠ "" →
      Upload.processUploadStep resp startTime w acts = Upload.ItemOutcome.success gid ∧
        ∃ st, startTime = some st ∧
          ∃ act ∈ acts, ∃ a, act.start = some a ∧ |a - st| ≤ w ∧
            Upload.pyOr act.activityId act.internalId = some gid) ∧
    (Upload.confirmDuplicateByTime startTime w acts = none →
      Upload.processUploadStep resp startTime w acts =
        Upload.ItemOutcome.retryFailure ("Upload failed - no Garmin ID returned")) := by
  have hfit : Upload.uploadFit resp startTime w acts =
      Upload.confirmDuplicateByTime startTime w acts := by
    unfold Upload.uploadFit
    rw [hs, hf]
  constructor
  · intro gid hc hdup hemp
    constructor
    · unfold Upload.processUploadStep
      rw [hfit, hc]
      simp [Upload.dispatchUploadResult, hdup, hemp]
    · exact Upload.confirm_sound startTime w acts gid hc
  · intro hc
    unfold Upload.processUploadStep
    rw [hfit, hc]
    rfl

/-- C1 witness: the amended theorem at the concrete empty-ambiguous
response, both with a matching sink activity and with an empty sink
list. -/
theorem C1_ambiguous_upload_witness :
    (Upload.processUploadStep Upload.respEmpty (some 1000) 900 [Upload.actMatch] =
        Upload.ItemOutcome.success ("999") ∧
      ∃ st, (some 1000 : Option Int) = some st ∧
        ∃ act ∈ [Upload.actMatch], ∃ a, act.start = some a ∧ |a - st| ≤ (900 : Int) ∧
          Upload.pyOr act.activityId act.internalId = some ("999")) ∧
    Upload.processUploadStep Upload.respEmpty (some 1000) 900 [] =
      Upload.ItemOutcome.retryFailure ("Upload failed - no Garmin ID returned") :=
  ⟨(C1_ambiguous_upload Upload.respEmpty (some 1000) 900 [Upload.actMatch] rfl rfl).1
      ("999") (by decide) (by decide) (by decide),
    (C1_ambiguous_upload Upload.respEmpty (some 1000) 900 [] rfl rfl).2 rfl⟩

namespace Retry

/-- The result of one execution of the try-block in
`_process_single_item`: the upload stage returned an id, the duplicate
sentinel, or some step raised with an error message. -/
inductive AttemptOutcome where
  | ok (gid : String)
  | dup
  | fail (err : String)
deriving DecidableEq, Repr

/-- What the loop sees at the top of each iteration: either the
stop/pause signal is set (the worker returns immediately) or the
attempt runs with some outcome. -/
inductive StepInput where
  | interrupted
  | attempt (o : AttemptOutcome)
deriving DecidableEq, Repr

/-- The item row as mutated by the retry loop. -/
structure ItemRec where
  status : Queue.ItemStatus
  retryCount : Nat
  errorMessage : Option String
  garminId : Option String
deriving DecidableEq, Repr

/-- The retry loop of `_process_single_item`: `attempt` starts at the
item's stored retry_count; while `attempt < max_attempts` the loop
checks the stop/pause signals, runs the attempt (status is driven
through downloading and uploading), and on an exception increments both
`attempt` and the stored retry_count (`increment_item_retry`) before
retrying; when attempts are exhausted the item is set to failed with
the last error message.  Returns the final row and the trace of every
stored row state in order. -/
def runLoop (inputs : List StepInput) (maxAttempts : Nat) (attempt : Nat)
    (lastError : Option String) (st : ItemRec) : ItemRec × List ItemRec :=
  if attempt ≥ maxAttempts then
    let fin := { st with status := Queue.ItemStatus.failed, errorMessage := lastError }
    (fin, [fin])
  else
    match inputs with
    | [] => (st, [])
    | StepInput.interrupted :: _ => (st, [])
    | StepInput.attempt o :: rest =>
      let dl := { st with status := Queue.ItemStatus.downloading }
      let up := { dl with status := Queue.ItemStatus.uploading }
      match o with
      | AttemptOutcome.ok gid =>
        let fin := { up with status := Queue.ItemStatus.success, garminId := some gid }
        (fin, [dl, up, fin])
      | AttemptOutcome.dup =>
        let dupSentinel : Option String := some ("duplicate")
        let fin := { up with status := Queue.ItemStatus.skipped, garminId := dupSentinel }
        (fin, [dl, up, fin])
      | AttemptOutcome.fail e =>
        let st2 := { up with retryCount := up.retryCount + 1 }
        let res := runLoop rest maxAttempts (attempt + 1) (some e) st2
        (res.1, dl :: up :: st2 :: res.2)

/-- Generalized invariant: when `attempt` mirrors the stored retry
count and it is within the bound, every state the loop ever stores —
and the final one — keeps `retry_count ≤ max_attempts`. -/
theorem runLoop_bound (inputs : List StepInput) (maxAttempts : Nat) :
    ∀ attempt lastError st, attempt = st.retryCount → st.retryCount ≤ maxAttempts →
      (runLoop inputs maxAttempts attempt lastError st).1.retryCount ≤ maxAttempts ∧
        ∀ s ∈ (runLoop inputs maxAttempts attempt lastError st).2,
          s.retryCount ≤ maxAttempts := by
  induction inputs with
  | nil =>
    intro attempt lastError st hsync hb
    by_cases hge : attempt ≥ maxAttempts
    · simp [runLoop, hge]
      omega
    · simp [runLoop, hge]
      exact hb
  | cons inp rest ih =>
    intro attempt lastError st hsync hb
    by_cases hge : attempt ≥ maxAttempts
    · cases inp with
      | interrupted =>
        simp [runLoop, hge]
        omega
      | attempt o =>
        cases o <;> simp [runLoop, hge] <;> omega
    · cases inp with
      | interrupted =>
        simp [runLoop, hge]
        exact hb
      | attempt o =>
        cases o with
        | ok gid =>
          simp [runLoop, hge]
          omega
        | dup =>
          simp [runLoop, hge]
          omega
        | fail e =>
          have hlt : st.retryCount < maxAttempts := by omega
          have hrec := ih (attempt + 1) (some e)
            { st with status := Queue.ItemStatus.uploading, retryCount := st.retryCount + 1 }
            (by simp; omega) (by simp; omega)
          simp only [runLoop, hge, if_false, ge_iff_le]
          constructor
          · simpa using hrec.1
          · intro s hs
            simp at hs
            rcases hs with rfl | rfl | rfl | hs
            · simp
              omega
            · simp
              omega
            · simp
              omega
            · exact hrec.2 s (by simpa using hs)

/-- Exhaustion: a run of `n` consecutive failures starting with
`attempt + n = max_attempts` ends with status failed, retry_count
exactly at the bound, and the *last* error message retained. -/
theorem runLoop_exhaust (es : List String) :
    ∀ (maxAttempts attempt : Nat) (lastError : Option String) (st : ItemRec),
      attempt = st.retryCount → es ≠ [] → attempt + es.length = maxAttempts →
      ((runLoop (es.map (fun e => StepInput.attempt (AttemptOutcome.fail e)))
          maxAttempts attempt lastError st).1.status = Queue.ItemStatus.failed ∧
        (runLoop (es.map (fun e => StepInput.attempt (AttemptOutcome.fail e)))
          maxAttempts attempt lastError st).1.retryCount = maxAttempts ∧
        (runLoop (es.map (fun e => StepInput.attempt (AttemptOutcome.fail e)))
          maxAttempts attempt lastError st).1.errorMessage = es.getLast?) := by
  induction es with
  | nil =>
    intro maxAttempts attempt lastError st hsync hne hlen
    exact absurd rfl hne
  | cons e es ih =>
    intro maxAttempts attempt lastError st hsync hne hlen
    have hlt : ¬ attempt ≥ maxAttempts := by
      simp at hlen ⊢
      omega
    cases hes : es with
    | nil =>
      subst hes
      simp only [List.length_cons, List.length_nil] at hlen
      have hge2 : attempt + 1 ≥ maxAttempts := by omega
      simp [runLoop, hlt, hge2]
      omega
    | cons e2 es2 =>
      have hrec := ih maxAttempts (attempt + 1) (some e)
        { st with status := Queue.ItemStatus.uploading, retryCount := st.retryCount + 1 }
        (by simp; omega) (by simp [hes]) (by simp at hlen ⊢; omega)
      rw [hes] at hrec
      simp only [List.map_cons, runLoop, hlt, if_false, ge_iff_le]
      simp only [List.getLast?_cons_cons]
      refine ⟨?_, ?_, ?_⟩
      · simpa using hrec.1
      · simpa using hrec.2.1
      · simpa using hrec.2.2

/-! Concrete inputs for the C8 witness. -/

/-- A fresh pending item row. -/
def itemFresh : ItemRec :=
  { status := Queue.ItemStatus.pending, retryCount := 0,
    errorMessage := none, garminId := none }

end Retry

/-- C8: at every observable time the stored retry_count stays within
the snapshot's max_attempts bound (each failed attempt increments it
exactly once, in step with the loop's attempt counter), and a run that
exhausts max_attempts ends with status failed, retry_count equal to
max_attempts, and the last error message retained. -/
theorem C8_retry_bound (inputs : List Retry.StepInput) (maxAttempts : Nat)
    (st0 : Retry.ItemRec) (h : st0.retryCount ≤ maxAttempts) :
    ((Retry.runLoop inputs maxAttempts st0.retryCount none st0).1.retryCount ≤ maxAttempts ∧
      ∀ s ∈ (Retry.runLoop inputs maxAttempts st0.retryCount none st0).2,
        s.retryCount ≤ maxAttempts) ∧
    (∀ es : List String, es ≠ [] → st0.retryCount + es.length = maxAttempts →
      (Retry.runLoop (es.map (fun e => Retry.StepInput.attempt (Retry.AttemptOutcome.fail e)))
          maxAttempts st0.retryCount none st0).1.status = Queue.ItemStatus.failed ∧
        (Retry.runLoop (es.map (fun e => Retry.StepInput.attempt (Retry.AttemptOutcome.fail e)))
          maxAttempts st0.retryCount none st0).1.retryCount = maxAttempts ∧
        (Retry.runLoop (es.map (fun e => Retry.StepInput.attempt (Retry.AttemptOutcome.fail e)))
          maxAttempts st0.retryCount none st0).1.errorMessage = es.getLast?) := by
  constructor
  · exact Retry.runLoop_bound inputs maxAttempts st0.retryCount none st0 rfl h
  · intro es hne hlen
    exact Retry.runLoop_exhaust es maxAttempts st0.retryCount none st0 rfl hne hlen

/-- C8 witness: a fresh item under max_attempts 2 with two failing
attempts ends failed at retry_count 2 with the second error retained. -/
theorem C8_retry_bound_witness :
    ((Retry.runLoop [Retry.StepInput.attempt (Retry.AttemptOutcome.fail ("e1")),
        Retry.StepInput.attempt (Retry.AttemptOutcome.fail ("e2"))] 2
        Retry.itemFresh.retryCount none Retry.itemFresh).1.retryCount ≤ 2 ∧
      ∀ s ∈ (Retry.runLoop [Retry.StepInput.attempt (Retry.AttemptOutcome.fail ("e1")),
        Retry.StepInput.attempt (Retry.AttemptOutcome.fail ("e2"))] 2
        Retry.itemFresh.retryCount none Retry.itemFresh).2, s.retryCount ≤ 2) ∧
    (Retry.runLoop ([("e1" : String), "e2"].map
        (fun e => Retry.StepInput.attempt (Retry.AttemptOutcome.fail e))) 2
        Retry.itemFresh.retryCount none Retry.itemFresh).1.status =
      Queue.ItemStatus.failed ∧
    (Retry.runLoop ([("e1" : String), "e2"].map
        (fun e => Retry.StepInput.attempt (Retry.AttemptOutcome.fail e))) 2
        Retry.itemFresh.retryCount none Retry.itemFresh).1.retryCount = 2 ∧
    (Retry.runLoop ([("e1" : String), "e2"].map
        (fun e => Retry.StepInput.attempt (Retry.AttemptOutcome.fail e))) 2
        Retry.itemFresh.retryCount none Retry.itemFresh).1.errorMessage =
      ([("e1" : String), "e2"]).getLast? :=
  ⟨(C8_retry_bound [Retry.StepInput.attempt (Retry.AttemptOutcome.fail ("e1")),
      Retry.StepInput.attempt (Retry.AttemptOutcome.fail ("e2"))] 2 Retry.itemFresh
      (by decide)).1,
    (C8_retry_bound ([("e1" : String), "e2"].map
        (fun e => Retry.StepInput.attempt (Retry.AttemptOutcome.fail e))) 2 Retry.itemFresh
      (by decide)).2 [("e1" : String), "e2"] (by decide) (by decide)⟩

namespace Cancel

/-- Interleaving state of one job's items between the worker threads
and `cancel_job`.  `items` holds the stored status per item index;
`fetched` holds indices returned by a `get_pending_items` read that the
driver has not yet marked; `inflight` holds indices already claimed
(marked downloading and submitted to the pool). -/
structure WState where
  cancelled : Bool
  items : List Queue.ItemStatus
  fetched : List Nat
  inflight : List Nat
deriving DecidableEq, Repr

/-- The item rewrite of `cancel_job`: pending → failed. -/
def cancelItems (l : List Queue.ItemStatus) : List Queue.ItemStatus :=
  l.map (fun st => if st = Queue.ItemStatus.pending then Queue.ItemStatus.failed else st)

/-- The state produced by `cancel_job`: all pending items failed, job
cancelled. -/
def cancelState (s : WState) : WState :=
  { s with cancelled := true, items := cancelItems s.items }

/-- One store-visible transition of the system, each modelling one
database operation of the source:
* `fetch`    — `get_pending_items` returns a pending item to the driver;
* `mark`     — the driver's unconditional
               `update_item_status(item_id, DOWNLOADING)` before submit;
* `stage`    — an intra-attempt `update_item_status` from the pool
               thread (downloading or uploading);
* `finish*`  — the terminal `update_item_status` of
               `_process_single_item` (success / skipped / failed);
* `cancel`   — `cancel_job` on the not-yet-cancelled job. -/
inductive Step : WState → WState → Prop where
  | fetch (s : WState) (i : Nat) :
      s.items[i]? = some Queue.ItemStatus.pending →
      Step s { s with fetched := i :: s.fetched }
  | mark (s : WState) (i : Nat) :
      i ∈ s.fetched →
      Step s { s with
        items := s.items.set i Queue.ItemStatus.downloading
        fetched := s.fetched.erase i
        inflight := i :: s.inflight }
  | stage (s : WState) (i : Nat) (st : Queue.ItemStatus) :
      i ∈ s.inflight →
      (st = Queue.ItemStatus.downloading ∨ st = Queue.ItemStatus.uploading) →
      Step s { s with items := s.items.set i st }
  | finishSuccess (s : WState) (i : Nat) :
      i ∈ s.inflight →
      Step s { s with
        items := s.items.set i Queue.ItemStatus.success
        inflight := s.inflight.erase i }
  | finishSkipped (s : WState) (i : Nat) :
      i ∈ s.inflight →
      Step s { s with
        items := s.items.set i Queue.ItemStatus.skipped
        inflight := s.inflight.erase i }
  | finishFailed (s : WState) (i : Nat) :
      i ∈ s.inflight →
      Step s { s with
        items := s.items.set i Queue.ItemStatus.failed
        inflight := s.inflight.erase i }
  | cancel (s : WState) :
      s.cancelled = false →
      Step s (cancelState s)

/-- Finitely many transitions. -/
def Steps : WState → WState → Prop := Relation.ReflTransGen Step

/-- No item is pending after the cancel rewrite. -/
theorem cancelItems_no_pending (l : List Queue.ItemStatus) :
    ∀ st ∈ cancelItems l, st ≠ Queue.ItemStatus.pending := by
  intro st hmem
  rcases List.mem_map.mp hmem with ⟨st0, _, rfl⟩
  by_cases h0 : st0 = Queue.ItemStatus.pending <;> simp [h0]

/-- Pending items are failed by the cancel rewrite. -/
theorem cancelItems_pending_failed (l : List Queue.ItemStatus) (i : Nat)
    (h : l[i]? = some Queue.ItemStatus.pending) :
    (cancelItems l)[i]? = some Queue.ItemStatus.failed := by
  unfold cancelItems
  rw [List.getElem?_map, h]
  rfl

/-- Backward step analysis from a cancelled, pending-free state: the
invariants persist, the driver never acquires new work, and an item
that shows success or skipped after the step either already did or was
in flight. -/
theorem step_back (s m : WState) (h : Step s m) (hc : s.cancelled = true)
    (hp : ∀ st ∈ s.items, st ≠ Queue.ItemStatus.pending) (i : Nat) :
    m.cancelled = true ∧
      (∀ st ∈ m.items, st ≠ Queue.ItemStatus.pending) ∧
      (∀ j ∈ m.fetched, j ∈ s.fetched) ∧
      (∀ j ∈ m.inflight, j ∈ s.inflight ∨ j ∈ s.fetched) ∧
      ((m.items[i]? = some Queue.ItemStatus.success ∨
          m.items[i]? = some Queue.ItemStatus.skipped) →
        (s.items[i]? = some Queue.ItemStatus.success ∨
            s.items[i]? = some Queue.ItemStatus.skipped) ∨ i ∈ s.inflight) := by
  cases h with
  | fetch j hj =>
    exact absurd rfl (hp _ (List.getElem?_mem hj))
  | mark j hj =>
    refine ⟨hc, ?_, ?_, ?_, ?_⟩
    · intro st hmem
      rcases List.mem_or_eq_of_mem_set hmem with hmem' | rfl
      · exact hp st hmem'
      · simp
    · intro k hk
      exact List.mem_of_mem_erase hk
    · intro k hk
      simp at hk
      rcases hk with rfl | hk
      · exact Or.inr hj
      · exact Or.inl hk
    · intro hsucc
      by_cases hij : j = i
      · subst hij
        rcases hsucc with hsucc | hsucc <;>
          rw [List.getElem?_set] at hsucc <;>
          by_cases hlen : j < s.items.length <;> simp [hlen] at hsucc
      · rcases hsucc with hsucc | hsucc <;> rw [List.getElem?_set_ne hij] at hsucc
        · exact Or.inl (Or.inl hsucc)
        · exact Or.inl (Or.inr hsucc)
  | stage j st0 hj hst =>
    refine ⟨hc, ?_, fun k hk => hk, fun k hk => Or.inl hk, ?_⟩
    · intro st hmem
      rcases List.mem_or_eq_of_mem_set hmem with hmem' | rfl
      · exact hp st hmem'
      · rcases hst with rfl | rfl <;> simp
    · intro hsucc
      by_cases hij : j = i
      · subst hij
        rcases hsucc with hsucc | hsucc <;>
          rw [List.getElem?_set] at hsucc <;>
          by_cases hlen : j < s.items.length <;>
          rcases hst with rfl | rfl <;> simp [hlen] at hsucc
      · rcases hsucc with hsucc | hsucc <;> rw [List.getElem?_set_ne hij] at hsucc
        · exact Or.inl (Or.inl hsucc)
        · exact Or.inl (Or.inr hsucc)
  | finishSuccess j hj =>
    refine ⟨hc, ?_, fun k hk => hk, fun k hk => Or.inl (List.mem_of_mem_erase hk), ?_⟩
    · intro st hmem
      rcases List.mem_or_eq_of_mem_set hmem with hmem' | rfl
      · exact hp st hmem'
      · simp
    · intro hsucc
      by_cases hij : j = i
      · subst hij
        exact Or.inr hj
      · rcases hsucc with hsucc | hsucc <;> rw [List.getElem?_set_ne hij] at hsucc
        · exact Or.inl (Or.inl hsucc)
        · exact Or.inl (Or.inr hsucc)
  | finishSkipped j hj =>
    refine ⟨hc, ?_, fun k hk => hk, fun k hk => Or.inl (List.mem_of_mem_erase hk), ?_⟩
    · intro st hmem
      rcases List.mem_or_eq_of_mem_set hmem with hmem' | rfl
      · exact hp st hmem'
      · simp
    · intro hsucc
      by_cases hij : j = i
      · subst hij
        exact Or.inr hj
      · rcases hsucc with hsucc | hsucc <;> rw [List.getElem?_set_ne hij] at hsucc
        · exact Or.inl (Or.inl hsucc)
        · exact Or.inl (Or.inr hsucc)
  | finishFailed j hj =>
    refine ⟨hc, ?_, fun k hk => hk, fun k hk => Or.inl (List.mem_of_mem_erase hk), ?_⟩
    · intro st hmem
      rcases List.mem_or_eq_of_mem_set hmem with hmem' | rfl
      · exact hp st hmem'
      · simp
    · intro hsucc
      by_cases hij : j = i
      · subst hij
        rcases hsucc with hsucc | hsucc <;>
          rw [List.getElem?_set] at hsucc <;>
          by_cases hlen : j < s.items.length <;> simp [hlen] at hsucc
      · rcases hsucc with hsucc | hsucc <;> rw [List.getElem?_set_ne hij] at hsucc
        · exact Or.inl (Or.inl hsucc)
        · exact Or.inl (Or.inr hsucc)
  | cancel hnc =>
    rw [hc] at hnc
    exact absurd hnc (by simp)

/-! Concrete trace for the C3 counterexample: one item in flight at
upload stage, cancellation, then the in-flight item finishes
successfully. -/

def c0 : WState :=
  { cancelled := false, items := [Queue.ItemStatus.uploading],
    fetched := [], inflight := [0] }

def c1 : WState :=
  { cancelled := true, items := [Queue.ItemStatus.uploading],
    fetched := [], inflight := [0] }

def c2 : WState :=
  { cancelled := true, items := [Queue.ItemStatus.success],
    fetched := [], inflight := [] }

end Cancel

/-- C3: the claim states that after `cancel_job` returns no item of the
job ever transitions to success or skipped.  In the trace below item 0
is in flight (uploading) when `cancel_job` runs, and the worker then
records it as success: the finishing `update_item_status` is
unconditional and checks no cancellation signal; the claim is false. -/
theorem C3_counterexample :
    Cancel.Step Cancel.c0 Cancel.c1 ∧
      Cancel.Step Cancel.c1 Cancel.c2 ∧
      Cancel.c1.cancelled = true ∧
      Cancel.c1.items = [Queue.ItemStatus.uploading] ∧
      Cancel.c2.items = [Queue.ItemStatus.success] := by
  refine ⟨?_, ?_, by decide, by decide, by decide⟩
  · have h : Cancel.c1 = Cancel.cancelState Cancel.c0 := by decide
    rw [h]
    exact Cancel.Step.cancel Cancel.c0 rfl
  · have h : Cancel.c2 = { Cancel.c1 with
        items := Cancel.c1.items.set 0 Queue.ItemStatus.success,
        inflight := Cancel.c1.inflight.erase 0 } := by decide
    rw [h]
    exact Cancel.Step.finishSuccess Cancel.c1 0 (by decide)

/-- C3 (amended): `cancel_job` immediately fails every pending item and
leaves no pending item; from the resulting state, any item of the job
that is ever observed as success or skipped afterwards either already
was so, or was already fetched or in flight at the moment of
cancellation — an item that was pending when `cancel_job` ran never
becomes success or skipped, but in-flight (or already-fetched) items
may still finish successfully. -/
theorem C3_cancel_safety :
    (∀ s : Cancel.WState, s.cancelled = false →
      Cancel.Step s (Cancel.cancelState s) ∧
      (∀ st ∈ (Cancel.cancelState s).items, st ≠ Queue.ItemStatus.pending) ∧
      (∀ i : Nat, s.items[i]? = some Queue.ItemStatus.pending →
        (Cancel.cancelState s).items[i]? = some Queue.ItemStatus.failed)) ∧
    (∀ s t : Cancel.WState, Cancel.Steps s t → s.cancelled = true →
      (∀ st ∈ s.items, st ≠ Queue.ItemStatus.pending) →
      ∀ i : Nat, (t.items[i]? = some Queue.ItemStatus.success ∨
          t.items[i]? = some Queue.ItemStatus.skipped) →
        (s.items[i]? = some Queue.ItemStatus.success ∨
            s.items[i]? = some Queue.ItemStatus.skipped) ∨
          i ∈ s.inflight ∨ i ∈ s.fetched) := by
  constructor
  · intro s hs
    exact ⟨Cancel.Step.cancel s hs, Cancel.cancelItems_no_pending s.items,
      fun i hi => Cancel.cancelItems_pending_failed s.items i hi⟩
  · intro s t hsteps
    induction hsteps using Relation.ReflTransGen.head_induction_on with
    | refl =>
      intro hc hp i hi
      exact Or.inl hi
    | head hstep hrest ih =>
      rename_i a c
      intro hc hp i hi
      have hb := Cancel.step_back a c hstep hc hp i
      rcases ih hb.1 hb.2.1 i hi with hm | hin | hfe
      · rcases hb.2.2.2.2 hm with hs' | hin'
        · exact Or.inl hs'
        · exact Or.inr (Or.inl hin')
      · rcases hb.2.2.2.1 i hin with h1 | h2
        · exact Or.inr (Or.inl h1)
        · exact Or.inr (Or.inr h2)
      · exact Or.inr (Or.inr (hb.2.2.1 i hfe))

/-- C3 witness: the safety theorem applied to the concrete trace — from
the cancelled state `c1`, item 0 (observed success in `c2`) was in
flight at cancellation. -/
theorem C3_cancel_safety_witness :
    (Cancel.c1.items[0]? = some Queue.ItemStatus.success ∨
        Cancel.c1.items[0]? = some Queue.ItemStatus.skipped) ∨
      0 ∈ Cancel.c1.inflight ∨ 0 ∈ Cancel.c1.fetched :=
  C3_cancel_safety.2 Cancel.c1 Cancel.c2
    (Relation.ReflTransGen.single (by
      have h : Cancel.c2 = { Cancel.c1 with
          items := Cancel.c1.items.set 0 Queue.ItemStatus.success
          inflight := Cancel.c1.inflight.erase 0 } := by decide
      rw [h]
      exact Cancel.Step.finishSuccess Cancel.c1 0 (by decide)))
    (by decide) (by decide) 0 (Or.inl (by decide))

namespace Tcx

/-- Python's `\s` for text patterns: the Unicode whitespace characters.
For the idempotence proof only `isSpace '<' = false` matters. -/
def isSpace (c : Char) : Bool :=
  c.toNat = 0x20 || (0x9 ≤ c.toNat && c.toNat ≤ 0xd) ||
  (0x1c ≤ c.toNat && c.toNat ≤ 0x1f) || c.toNat = 0x85 || c.toNat = 0xa0 ||
  c.toNat = 0x1680 || (0x2000 ≤ c.toNat && c.toNat ≤ 0x200a) ||
  c.toNat = 0x2028 || c.toNat = 0x2029 || c.toNat = 0x202f ||
  c.toNat = 0x205f || c.toNat = 0x3000

/-- The literal pieces of the pattern
`<Extensions>\s*<Speed>([^<]+)</Speed>\s*</Extensions>` of
`fix_tcx_extensions`, and of its replacement. -/
def extOpen : List Char := "<Extensions>".data

def speedOpen : List Char := "<Speed>".data

def speedClose : List Char := "</Speed>".data

def extClose : List Char := "</Extensions>".data

def replPre : List Char := "<Extensions><ns3:TPX><ns3:Speed>".data

def replPost : List Char := "</ns3:Speed></ns3:TPX></Extensions>".data

/-- The replacement
`<Extensions><ns3:TPX><ns3:Speed>\1</ns3:Speed></ns3:TPX></Extensions>`
for captured content `x`. -/
def repl (x : List Char) : List Char := replPre ++ x ++ replPost

/-- Consume an exact literal from the head of the input. -/
def eatLit : List Char → List Char → Option (List Char)
  | [], cs => some cs
  | _ :: _, [] => none
  | l :: ls, c :: cs => if c = l then eatLit ls cs else none

/-- An anchored match of the regex at the head of `cs`, returning the
captured `([^<]+)` content and the rest of the input.  Greedy `\s*` and
`[^<]+` are deterministic here since backtracking to a shorter run
cannot make the following literal (starting with `<`) match. -/
def matchPat (cs : List Char) : Option (List Char × List Char) :=
  match eatLit extOpen cs with
  | none => none
  | some cs1 =>
    match eatLit speedOpen (cs1.dropWhile isSpace) with
    | none => none
    | some cs3 =>
      if (cs3.takeWhile (fun c => c ≠ '<')).isEmpty then none
      else
        match eatLit speedClose (cs3.dropWhile (fun c => c ≠ '<')) with
        | none => none
        | some cs5 =>
          match eatLit extClose (cs5.dropWhile isSpace) with
          | none => none
          | some cs7 => some (cs3.takeWhile (fun c => c ≠ '<'), cs7)

/-- The full text matched by the pattern with whitespace runs `w1`,
`w2` and content `x`. -/
def patText (x w1 w2 : List Char) : List Char :=
  extOpen ++ (w1 ++ (speedOpen ++ (x ++ (speedClose ++ (w2 ++ extClose)))))

theorem eatLit_sound : ∀ (l cs cs' : List Char), eatLit l cs = some cs' → cs = l ++ cs' := by
  intro l
  induction l with
  | nil =>
    intro cs cs' h
    simpa [eatLit] using h
  | cons a ls ih =>
    intro cs cs' h
    cases cs with
    | nil => simp [eatLit] at h
    | cons c cs0 =>
      by_cases hc : c = a
      · simp [eatLit, hc] at h
        rw [List.cons_append, ← ih cs0 cs' h, hc]
      · simp [eatLit, hc] at h

theorem eatLit_append (l cs : List Char) : eatLit l (l ++ cs) = some cs := by
  induction l with
  | nil => simp [eatLit]
  | cons a ls ih => simp [eatLit, ih]

/-- `headFalse p r`: `r` is empty or starts with a character refuting
`p`; the stop condition of a maximal `takeWhile` run. -/
def headFalse (p : Char → Bool) : List Char → Prop
  | [] => True
  | c :: _ => p c = false

theorem takeWhile_append_exact (p : Char → Bool) (w r : List Char)
    (hw : ∀ c ∈ w, p c = true) (hr : headFalse p r) :
    (w ++ r).takeWhile p = w := by
  induction w with
  | nil =>
    cases r with
    | nil => rfl
    | cons c t =>
      simp only [headFalse] at hr
      simp [List.takeWhile_cons, hr]
  | cons a w' ih =>
    have ha : p a = true := hw a (List.mem_cons_self a w')
    simp [List.takeWhile_cons, ha, ih (fun c hc => hw c (List.mem_cons_of_mem a hc))]

theorem dropWhile_append_exact (p : Char → Bool) (w r : List Char)
    (hw : ∀ c ∈ w, p c = true) (hr : headFalse p r) :
    (w ++ r).dropWhile p = r := by
  induction w with
  | nil =>
    cases r with
    | nil => rfl
    | cons c t =>
      simp only [headFalse] at hr
      simp [List.dropWhile_cons, hr]
  | cons a w' ih =>
    have ha : p a = true := hw a (List.mem_cons_self a w')
    simp [List.dropWhile_cons, ha, ih (fun c hc => hw c (List.mem_cons_of_mem a hc))]

/-- Soundness: a successful anchored match decomposes the input as the
matched text followed by the rest, with the side conditions of the
pattern. -/
theorem matchPat_sound (cs x rest : List Char) (h : matchPat cs = some (x, rest)) :
    ∃ w1 w2, (∀ c ∈ w1, isSpace c = true) ∧ (∀ c ∈ w2, isSpace c = true) ∧
      x ≠ [] ∧ (∀ c ∈ x, c ≠ '<') ∧ cs = patText x w1 w2 ++ rest := by
  unfold matchPat at h
  cases h1 : eatLit extOpen cs with
  | none => rw [h1] at h; simp at h
  | some cs1 =>
    rw [h1] at h
    simp only [] at h
    cases h2 : eatLit speedOpen (cs1.dropWhile isSpace) with
    | none => rw [h2] at h; simp at h
    | some cs3 =>
      rw [h2] at h
      simp only [] at h
      by_cases hx : (cs3.takeWhile (fun c => c ≠ '<')).isEmpty
      · rw [if_pos hx] at h; simp at h
      · rw [if_neg hx] at h
        cases h3 : eatLit speedClose (cs3.dropWhile (fun c => c ≠ '<')) with
        | none => rw [h3] at h; simp at h
        | some cs5 =>
          rw [h3] at h
          simp only [] at h
          cases h4 : eatLit extClose (cs5.dropWhile isSpace) with
          | none => rw [h4] at h; simp at h
          | some cs7 =>
            rw [h4] at h
            simp only [Option.some.injEq, Prod.mk.injEq] at h
            obtain ⟨hxeq, hrest⟩ := h
            refine ⟨cs1.takeWhile isSpace, cs5.takeWhile isSpace, ?_, ?_, ?_, ?_, ?_⟩
            · intro c hc
              exact List.mem_takeWhile_imp hc
            · intro c hc
              exact List.mem_takeWhile_imp hc
            · rw [← hxeq]
              intro hnil
              rw [hnil] at hx
              exact hx rfl
            · intro c hc
              rw [← hxeq] at hc
              simpa using List.mem_takeWhile_imp hc
            · have e1 := eatLit_sound _ _ _ h1
              have e2 := eatLit_sound _ _ _ h2
              have e3 := eatLit_sound _ _ _ h3
              have e4 := eatLit_sound _ _ _ h4
              rw [patText, ← hxeq, ← hrest]
              calc cs = extOpen ++ cs1 := e1
                _ = extOpen ++ (cs1.takeWhile isSpace ++ cs1.dropWhile isSpace) := by
                    rw [List.takeWhile_append_dropWhile]
                _ = extOpen ++ (cs1.takeWhile isSpace ++ (speedOpen ++ cs3)) := by rw [← e2]
                _ = extOpen ++ (cs1.takeWhile isSpace ++ (speedOpen ++
                      (cs3.takeWhile (fun c => c ≠ '<') ++
                        cs3.dropWhile (fun c => c ≠ '<')))) := by
                    rw [List.takeWhile_append_dropWhile]
                _ = extOpen ++ (cs1.takeWhile isSpace ++ (speedOpen ++
                      (cs3.takeWhile (fun c => c ≠ '<') ++ (speedClose ++ cs5)))) := by
                    rw [← e3]
                _ = extOpen ++ (cs1.takeWhile isSpace ++ (speedOpen ++
                      (cs3.takeWhile (fun c => c ≠ '<') ++ (speedClose ++
                        (cs5.takeWhile isSpace ++ cs5.dropWhile isSpace))))) := by
                    rw [List.takeWhile_append_dropWhile]
                _ = extOpen ++ (cs1.takeWhile isSpace ++ (speedOpen ++
                      (cs3.takeWhile (fun c => c ≠ '<') ++ (speedClose ++
                        (cs5.takeWhile isSpace ++ (extClose ++ cs7)))))) := by
                    rw [← e4]
                _ = _ := by simp [List.append_assoc]

/-- Completeness: the matcher accepts exactly the texts of the pattern
shape, consuming them greedily. -/
theorem matchPat_complete (x w1 w2 rest : List Char)
    (hw1 : ∀ c ∈ w1, isSpace c = true) (hw2 : ∀ c ∈ w2, isSpace c = true)
    (hx : x ≠ []) (hxlt : ∀ c ∈ x, c ≠ '<') :
    matchPat (patText x w1 w2 ++ rest) = some (x, rest) := by
  have hsp : isSpace '<' = false := by decide
  have hxw : ∀ c ∈ x, (fun c => decide (c ≠ '<')) c = true := by
    intro c hc
    simpa using hxlt c hc
  have hf1 : headFalse isSpace
      (speedOpen ++ (x ++ (speedClose ++ (w2 ++ (extClose ++ rest))))) := by
    rw [(by decide : speedOpen = '<' :: ("Speed>".data))]
    simp [headFalse, hsp]
  have hf2 : headFalse (fun c => decide (c ≠ '<'))
      (speedClose ++ (w2 ++ (extClose ++ rest))) := by
    rw [(by decide : speedClose = '<' :: ("/Speed>".data))]
    simp [headFalse]
  have hf3 : headFalse isSpace (extClose ++ rest) := by
    rw [(by decide : extClose = '<' :: ("/Extensions>".data))]
    simp [headFalse, hsp]
  have hstart : patText x w1 w2 ++ rest = extOpen ++
      (w1 ++ (speedOpen ++ (x ++ (speedClose ++ (w2 ++ (extClose ++ rest)))))) := by
    simp [patText, List.append_assoc]
  rw [hstart]
  unfold matchPat
  rw [eatLit_append]
  simp only []
  rw [dropWhile_append_exact isSpace w1 _ hw1 hf1]
  rw [eatLit_append]
  simp only []
  rw [takeWhile_append_exact _ x _ hxw hf2, dropWhile_append_exact _ x _ hxw hf2]
  have hxe : x.isEmpty = false := by
    cases x with
    | nil => exact absurd rfl hx
    | cons a t => rfl
  rw [hxe]
  simp only [Bool.false_eq_true, if_false]
  rw [eatLit_append]
  simp only []
  rw [dropWhile_append_exact isSpace w2 _ hw2 hf3]
  rw [eatLit_append]

/-- The matched text is at least the two tag literals long, so the rest
is strictly shorter than the input. -/
theorem matchPat_length (cs x rest : List Char) (h : matchPat cs = some (x, rest)) :
    rest.length < cs.length := by
  rcases matchPat_sound cs x rest h with ⟨w1, w2, _, _, hx, _, heq⟩
  rw [heq]
  simp [patText, extOpen, speedOpen, speedClose, extClose, List.length_append]
  omega

/-- `re.sub` of the pattern: scan left to right; at each position emit
the replacement for an anchored match and continue after it, otherwise
emit one character. -/
def fixAux (cs : List Char) : List Char :=
  match hm : matchPat cs with
  | some (x, rest) => repl x ++ fixAux rest
  | none =>
    match cs with
    | [] => []
    | c :: t => c :: fixAux t
termination_by cs.length
decreasing_by
  · exact matchPat_length cs x rest hm
  · simp

/-- `fix_tcx_extensions` from `clients/coros.py`, at the level of the
decoded text: the UTF-8 decode/encode pair around the substitution is
the identity on the character content. -/
def fixTcxExtensions (cs : List Char) : List Char := fixAux cs

/-- One-step unfolding of `fixAux` at a match. -/
theorem fixAux_match (cs x rest : List Char) (h : matchPat cs = some (x, rest)) :
    fixAux cs = repl x ++ fixAux rest := by
  conv_lhs => rw [fixAux.eq_def]
  split
  · rename_i x' rest' heq
    rw [h] at heq
    simp only [Option.some.injEq, Prod.mk.injEq] at heq
    rw [heq.1, heq.2]
  · rename_i heq
    rw [h] at heq
    simp at heq

/-- One-step unfolding of `fixAux` at a non-matching position. -/
theorem fixAux_no_match_cons (c : Char) (t : List Char)
    (h : matchPat (c :: t) = none) : fixAux (c :: t) = c :: fixAux t := by
  conv_lhs => rw [fixAux.eq_def]
  split
  · rename_i x' rest' heq
    rw [h] at heq
    simp at heq
  · rfl

theorem fixAux_nil : fixAux [] = [] := by
  conv_lhs => rw [fixAux.eq_def]
  split
  · rename_i x' rest' heq
    have he : eatLit extOpen [] = none := by
      rw [(by decide : extOpen = '<' :: ("Extensions>".data))]
      rfl
    unfold matchPat at heq
    rw [he] at heq
    simp at heq
  · rfl

/-- A position whose first character is not `<` cannot match. -/
theorem matchPat_none_of_head_ne (c : Char) (cs : List Char) (h : c ≠ '<') :
    matchPat (c :: cs) = none := by
  unfold matchPat
  have he : eatLit extOpen (c :: cs) = none := by
    rw [(by decide : extOpen = '<' :: ("Extensions>".data))]
    simp [eatLit, h]
  rw [he]

/-- A position reading `<` followed by anything but `E` cannot match. -/
theorem matchPat_none_of_two (c : Char) (cs : List Char) (h : c ≠ 'E') :
    matchPat ('<' :: c :: cs) = none := by
  unfold matchPat
  have he : eatLit extOpen ('<' :: c :: cs) = none := by
    rw [(by decide : extOpen = '<' :: 'E' :: ("xtensions>".data))]
    simp [eatLit, h]
  rw [he]

/-- Decidable head test: the first two characters already refute the
pattern, whatever follows. -/
def headFails : List Char → Bool
  | [] => true
  | c :: rest =>
    if c = '<' then
      match rest with
      | [] => false
      | c2 :: _ => decide (c2 ≠ 'E')
    else true

theorem matchPat_none_of_headFails (v u : List Char) (hne : v ≠ [])
    (h : headFails v = true) : matchPat (v ++ u) = none := by
  cases v with
  | nil => exact absurd rfl hne
  | cons c rest =>
    by_cases hc : c = '<'
    · subst hc
      cases rest with
      | nil => simp [headFails] at h
      | cons c2 r2 =>
        simp [headFails] at h
        rw [List.cons_append, List.cons_append]
        exact matchPat_none_of_two c2 (r2 ++ u) h
    · rw [List.cons_append]
      exact matchPat_none_of_head_ne c _ hc

/-- The replacement text itself never matches at its head: after
`<Extensions>` it continues with `<ns3:TPX>`, not `<Speed>`. -/
theorem matchPat_none_replPre (t : List Char) : matchPat (replPre ++ t) = none := by
  have hsplit : replPre ++ t =
      extOpen ++ ('<' :: 'n' :: ("s3:TPX><ns3:Speed>".data ++ t)) := by
    rw [(by decide : replPre = extOpen ++ ('<' :: 'n' :: ("s3:TPX><ns3:Speed>".data)))]
    simp [List.append_assoc]
  unfold matchPat
  rw [hsplit, eatLit_append]
  simp only []
  rw [List.dropWhile_cons]
  simp only [(by decide : isSpace '<' = false), Bool.false_eq_true, if_false]
  have he : eatLit speedOpen ('<' :: 'n' :: ("s3:TPX><ns3:Speed>".data ++ t)) = none := by
    rw [(by decide : speedOpen = '<' :: 'S' :: ("peed>".data))]
    simp [eatLit]
  rw [he]

/-- Scanning a block none of whose nonempty suffixes can start a match
just copies the block. -/
theorem fixAux_scan (v u : List Char)
    (h : ∀ v', v' <:+ v → v' ≠ [] → matchPat (v' ++ u) = none) :
    fixAux (v ++ u) = v ++ fixAux u := by
  induction v with
  | nil => simp
  | cons c v' ih =>
    have hnm : matchPat ((c :: v') ++ u) = none :=
      h (c :: v') (List.suffix_refl _) (by simp)
    rw [List.cons_append] at hnm ⊢
    rw [fixAux_no_match_cons c (v' ++ u) hnm]
    rw [ih (fun w hw hwne => h w (hw.trans (List.suffix_cons c v')) hwne)]
    simp

/-- A suffix of a concatenation is a suffix of the right part or a
nonempty suffix of the left part followed by the whole right part. -/
theorem suffix_append_cases (v' a b : List Char) (h : v' <:+ a ++ b) :
    v' <:+ b ∨ ∃ a', a' <:+ a ∧ a' ≠ [] ∧ v' = a' ++ b := by
  by_cases hl : v'.length ≤ b.length
  · exact Or.inl (List.suffix_of_suffix_length_le h (List.suffix_append a b) hl)
  · right
    push_neg at hl
    have hb : b <:+ v' :=
      List.suffix_of_suffix_length_le (List.suffix_append a b) h (by omega)
    rcases hb with ⟨a2, rfl⟩
    rcases h with ⟨t, ht⟩
    have ha : t ++ a2 = a := by
      have h2 : (t ++ a2) ++ b = a ++ b := by
        rw [List.append_assoc]
        exact ht
      exact List.append_cancel_right h2
    refine ⟨a2, ⟨t, ha⟩, ?_, rfl⟩
    intro hnil
    subst hnil
    simp at hl

/-- No nonempty suffix of the replacement block can start a match. -/
theorem repl_suffix_no_match (x u v' : List Char) (hlt : ∀ c ∈ x, c ≠ '<')
    (hs : v' <:+ repl x) (hne : v' ≠ []) : matchPat (v' ++ u) = none := by
  have hrepl : repl x = replPre ++ (x ++ replPost) := by
    simp [repl, List.append_assoc]
  rw [hrepl] at hs
  rcases suffix_append_cases v' replPre (x ++ replPost) hs with h1 | ⟨a', ha', hane, rfl⟩
  · rcases suffix_append_cases v' x replPost h1 with h2 | ⟨b', hb', hbne, rfl⟩
    · have hdec : ∀ w ∈ replPost.tails, w = [] ∨ headFails w = true := by decide
      rcases hdec v' ((List.mem_tails _ _).mpr h2) with rfl | hh
      · exact absurd rfl hne
      · exact matchPat_none_of_headFails v' u hne hh
    · cases b' with
      | nil => exact absurd rfl hbne
      | cons c bt =>
        have hc : c ∈ x := hb'.subset (List.mem_cons_self c bt)
        rw [List.cons_append, List.cons_append]
        exact matchPat_none_of_head_ne c _ (hlt c hc)
  · by_cases hfull : a' = replPre
    · subst hfull
      rw [List.append_assoc]
      exact matchPat_none_replPre _
    · have hdec : ∀ w ∈ replPre.tails, w = replPre ∨ w = [] ∨ headFails w = true := by
        decide
      rcases hdec a' ((List.mem_tails _ _).mpr ha') with rfl | rfl | hh
      · exact absurd rfl hfull
      · exact absurd rfl hane
      · rw [List.append_assoc]
        exact matchPat_none_of_headFails a' _ hane hh

/-- Scanning past an emitted replacement block. -/
theorem fixAux_repl (x u : List Char) (hlt : ∀ c ∈ x, c ≠ '<') :
    fixAux (repl x ++ u) = repl x ++ fixAux u :=
  fixAux_scan (repl x) u (fun v' hs hne => repl_suffix_no_match x u v' hlt hs hne)

/-- Adjacent-pair discipline of any matched text: a `<` is never
followed by `n` (it is always followed by `E`, `S` or `/`). -/
def Rpair (a b : Char) : Prop := ¬(a = '<' ∧ b = 'n')

instance : DecidableRel Rpair :=
  fun a b => inferInstanceAs (Decidable ¬(a = '<' ∧ b = 'n'))

theorem Rpair_of_ne (a b : Char) (h : a ≠ '<') : Rpair a b :=
  fun hc => h hc.1

theorem chain'_of_no_lt (l : List Char) (h : ∀ c ∈ l, c ≠ '<') :
    List.Chain' Rpair l := by
  induction l with
  | nil => exact List.chain'_nil
  | cons a t ih =>
    cases t with
    | nil => exact List.chain'_singleton a
    | cons b t2 =>
      rw [List.chain'_cons]
      refine ⟨Rpair_of_ne a b (h a (List.mem_cons_self a _)), ?_⟩
      exact ih (fun c hc => h c (List.mem_cons_of_mem a hc))

theorem isSpace_ne_lt (c : Char) (h : isSpace c = true) : c ≠ '<' := by
  intro hc
  rw [hc] at h
  exact absurd h (by decide)

/-- Bool check for the adjacent-pair discipline. -/
def chainOk : List Char → Bool
  | [] => true
  | [_] => true
  | a :: b :: t => (!(a = '<' && b = 'n')) && chainOk (b :: t)

theorem chain'_of_chainOk (l : List Char) (h : chainOk l = true) :
    List.Chain' Rpair l := by
  induction l with
  | nil => exact List.chain'_nil
  | cons a t ih =>
    cases t with
    | nil => exact List.chain'_singleton a
    | cons b t2 =>
      simp [chainOk] at h
      rw [List.chain'_cons]
      refine ⟨?_, ih h.2⟩
      intro hc
      rcases h.1 with h1 | h1
      · exact h1 hc.1
      · exact h1 hc.2

/-- Append with a `<`-free left part. -/
theorem chain'_append_left_safe (w z : List Char) (hw : ∀ c ∈ w, c ≠ '<')
    (hcz : List.Chain' Rpair z) : List.Chain' Rpair (w ++ z) := by
  rw [List.chain'_append]
  refine ⟨chain'_of_no_lt w hw, hcz, ?_⟩
  intro a ha b _
  exact Rpair_of_ne a b (hw a (List.mem_of_mem_getLast? ha))

/-- Append with a literal left part not ending in `<`. -/
theorem chain'_append_lit (w z : List Char) (hcw : List.Chain' Rpair w)
    (hlw : w.getLast? ≠ some '<') (hcz : List.Chain' Rpair z) :
    List.Chain' Rpair (w ++ z) := by
  rw [List.chain'_append]
  refine ⟨hcw, hcz, ?_⟩
  intro a ha b _
  refine Rpair_of_ne a b ?_
  intro hc
  subst hc
  exact hlw ha

/-- The text matched by the pattern never contains `<` followed by
`n`. -/
theorem chain'_patText (y v1 v2 : List Char) (hv1 : ∀ c ∈ v1, isSpace c = true)
    (hv2 : ∀ c ∈ v2, isSpace c = true) (hy : ∀ c ∈ y, c ≠ '<') :
    List.Chain' Rpair (patText y v1 v2) := by
  have hv1' : ∀ c ∈ v1, c ≠ '<' := fun c hc => isSpace_ne_lt c (hv1 c hc)
  have hv2' : ∀ c ∈ v2, c ≠ '<' := fun c hc => isSpace_ne_lt c (hv2 c hc)
  have h6 : List.Chain' Rpair (v2 ++ extClose) :=
    chain'_append_left_safe v2 extClose hv2' (chain'_of_chainOk _ (by decide))
  have h5 : List.Chain' Rpair (speedClose ++ (v2 ++ extClose)) :=
    chain'_append_lit speedClose _ (chain'_of_chainOk _ (by decide)) (by decide) h6
  have h4 : List.Chain' Rpair (y ++ (speedClose ++ (v2 ++ extClose))) :=
    chain'_append_left_safe y _ hy h5
  have h3 : List.Chain' Rpair (speedOpen ++ (y ++ (speedClose ++ (v2 ++ extClose)))) :=
    chain'_append_lit speedOpen _ (chain'_of_chainOk _ (by decide)) (by decide) h4
  have h2 : List.Chain' Rpair
      (v1 ++ (speedOpen ++ (y ++ (speedClose ++ (v2 ++ extClose))))) :=
    chain'_append_left_safe v1 _ hv1' h3
  rw [patText]
  exact chain'_append_lit extOpen _ (chain'_of_chainOk _ (by decide)) (by decide) h2

/-- Structure of the scanner's output: either the input had no match
anywhere and is returned unchanged, or the input splits as a literal
prefix, a first matched text, and a remainder, with the output the
prefix, the replacement, and the rewritten remainder. -/
theorem fixAux_structure_aux : ∀ (n : Nat) (t : List Char), t.length ≤ n →
    fixAux t = t ∨
      ∃ p x w1 w2 r, (∀ c ∈ w1, isSpace c = true) ∧ (∀ c ∈ w2, isSpace c = true) ∧
        x ≠ [] ∧ (∀ c ∈ x, c ≠ '<') ∧ t = p ++ (patText x w1 w2 ++ r) ∧
        fixAux t = p ++ (repl x ++ fixAux r) := by
  intro n
  induction n with
  | zero =>
    intro t ht
    cases t with
    | nil => exact Or.inl fixAux_nil
    | cons c t' => simp at ht
  | succ n ih =>
    intro t ht
    cases hm : matchPat t with
    | some p0 =>
      rcases p0 with ⟨x, r⟩
      rcases matchPat_sound t x r hm with ⟨w1, w2, hw1, hw2, hx, hxlt, heq⟩
      right
      exact ⟨[], x, w1, w2, r, hw1, hw2, hx, hxlt, by simpa using heq,
        by simpa using fixAux_match t x r hm⟩
    | none =>
      cases t with
      | nil => exact Or.inl fixAux_nil
      | cons c t' =>
        have ht' : t'.length ≤ n := by
          simp at ht
          omega
        rcases ih t' ht' with h1 | ⟨p, x, w1, w2, r, hw1, hw2, hx, hxlt, heq, hfix⟩
        · left
          rw [fixAux_no_match_cons c t' hm, h1]
        · right
          refine ⟨c :: p, x, w1, w2, r, hw1, hw2, hx, hxlt, ?_, ?_⟩
          · rw [List.cons_append, ← heq]
          · rw [fixAux_no_match_cons c t' hm, hfix, List.cons_append]

theorem fixAux_structure (t : List Char) :
    fixAux t = t ∨
      ∃ p x w1 w2 r, (∀ c ∈ w1, isSpace c = true) ∧ (∀ c ∈ w2, isSpace c = true) ∧
        x ≠ [] ∧ (∀ c ∈ x, c ≠ '<') ∧ t = p ++ (patText x w1 w2 ++ r) ∧
        fixAux t = p ++ (repl x ++ fixAux r) :=
  fixAux_structure_aux t.length t (Nat.le_refl _)

/-- The crux: rewriting the tail never creates a new match at a
position that did not match before. -/
theorem matchPat_none_fixAux (c : Char) (t : List Char)
    (hnm : matchPat (c :: t) = none) : matchPat (c :: fixAux t) = none := by
  cases hm2 : matchPat (c :: fixAux t) with
  | none => rfl
  | some p0 =>
    exfalso
    rcases p0 with ⟨y, ρ⟩
    rcases matchPat_sound _ y ρ hm2 with ⟨v1, v2, hv1, hv2, hy, hylt, heq⟩
    rcases fixAux_structure t with hid | ⟨p, x, w1, w2, r, hw1, hw2, hx, hxlt, hteq, hfix⟩
    · rw [hid] at heq
      have hco := matchPat_complete y v1 v2 ρ hv1 hv2 hy hylt
      rw [← heq, hnm] at hco
      simp at hco
    · rw [hfix] at heq
      have heq2 : (c :: p) ++ (repl x ++ fixAux r) = patText y v1 v2 ++ ρ := by
        simpa using heq
      by_cases hlen : (patText y v1 v2).length ≤ (c :: p).length
      · have hMpre : patText y v1 v2 <+: (c :: p) :=
          List.prefix_of_prefix_length_le ⟨ρ, heq2.symm⟩ ⟨repl x ++ fixAux r, rfl⟩ hlen
        rcases hMpre with ⟨δ, hδ⟩
        have hsplit : c :: t = patText y v1 v2 ++ (δ ++ (patText x w1 w2 ++ r)) := by
          calc c :: t = (c :: p) ++ (patText x w1 w2 ++ r) := by
                rw [hteq]
                rfl
            _ = (patText y v1 v2 ++ δ) ++ (patText x w1 w2 ++ r) := by rw [hδ]
            _ = _ := by rw [List.append_assoc]
        have hco := matchPat_complete y v1 v2 (δ ++ (patText x w1 w2 ++ r)) hv1 hv2 hy hylt
        rw [← hsplit, hnm] at hco
        simp at hco
      · push_neg at hlen
        have hpre : (c :: p) <+: patText y v1 v2 :=
          List.prefix_of_prefix_length_le ⟨repl x ++ fixAux r, rfl⟩ ⟨ρ, heq2.symm⟩
            (by omega)
        rcases hpre with ⟨B, hB⟩
        have hBlen : (c :: p).length + B.length = (patText y v1 v2).length := by
          rw [← hB]
          simp
          omega
        have hBne : B ≠ [] := by
          intro h0
          rw [h0] at hBlen
          simp at hBlen hlen
          omega
        have hcancel : repl x ++ fixAux r = B ++ ρ := by
          have hmid : (c :: p) ++ (repl x ++ fixAux r) = (c :: p) ++ (B ++ ρ) := by
            rw [heq2, ← hB, List.append_assoc]
          exact List.append_cancel_left hmid
        have hBpre : B <+: repl x ++ fixAux r := ⟨ρ, hcancel.symm⟩
        have hBsuf : B <:+ patText y v1 v2 := ⟨c :: p, hB⟩
        have hreplpre : replPre <+: repl x ++ fixAux r :=
          ⟨x ++ replPost ++ fixAux r, by simp [repl, List.append_assoc]⟩
        by_cases hk : B.length ≤ 13
        · have hpre2 : B <+: replPre :=
            List.prefix_of_prefix_length_le hBpre hreplpre
              (by
                have : replPre.length = 32 := by decide
                omega)
          have hext : extClose <:+ patText y v1 v2 :=
            ⟨extOpen ++ (v1 ++ (speedOpen ++ (y ++ (speedClose ++ v2)))), by
              simp [patText, List.append_assoc]⟩
          have hsuf2 : B <:+ extClose :=
            List.suffix_of_suffix_length_le hBsuf hext
              (by
                have : extClose.length = 13 := by decide
                omega)
          have hdec : ∀ b ∈ replPre.inits, b <:+ extClose → b = [] := by decide
          exact hBne (hdec B ((List.mem_inits _ _).mpr hpre2) hsuf2)
        · push_neg at hk
          have ht14 : B.take 14 = replPre.take 14 := by
            have h1 : B.take 14 <+: repl x ++ fixAux r :=
              (List.take_prefix 14 B).trans hBpre
            have h2 : replPre.take 14 <+: repl x ++ fixAux r :=
              (List.take_prefix 14 replPre).trans hreplpre
            have hl1 : (B.take 14).length = 14 := by
              simp [List.length_take]
              omega
            have hl2 : (replPre.take 14).length = 14 := by decide
            exact (List.prefix_of_prefix_length_le h1 h2 (by omega)).eq_of_length
              (by omega)
          have hchain : List.Chain' Rpair (patText y v1 v2) :=
            chain'_patText y v1 v2 hv1 hv2 hylt
          have hchainB : List.Chain' Rpair B := hchain.suffix hBsuf
          have hchain14 : List.Chain' Rpair (B.take 14) :=
            hchainB.prefix (List.take_prefix 14 B)
          rw [ht14] at hchain14
          have hsuf14 : ['<', 'n'] <:+ replPre.take 14 := by decide
          have hcp := hchain14.suffix hsuf14
          rw [List.chain'_cons] at hcp
          exact hcp.1 ⟨rfl, rfl⟩

/-- Idempotence of the scanner. -/
theorem fixAux_idem_aux : ∀ (n : Nat) (t : List Char), t.length ≤ n →
    fixAux (fixAux t) = fixAux t := by
  intro n
  induction n with
  | zero =>
    intro t ht
    cases t with
    | nil => rw [fixAux_nil, fixAux_nil]
    | cons c t' => simp at ht
  | succ n ih =>
    intro t ht
    cases hm : matchPat t with
    | some p0 =>
      rcases p0 with ⟨x, r⟩
      rcases matchPat_sound t x r hm with ⟨w1, w2, _, _, _, hxlt, heq⟩
      have hr : r.length ≤ n := by
        have := matchPat_length t x r hm
        omega
      rw [fixAux_match t x r hm, fixAux_repl x (fixAux r) hxlt, ih r hr]
    | none =>
      cases t with
      | nil => rw [fixAux_nil, fixAux_nil]
      | cons c t' =>
        have ht' : t'.length ≤ n := by
          simp at ht
          omega
        rw [fixAux_no_match_cons c t' hm,
          fixAux_no_match_cons c (fixAux t') (matchPat_none_fixAux c t' hm),
          ih t' ht']

end Tcx

/-- C9: the TCX payload fixer is idempotent — applying the
`<Extensions><Speed>…` → `<Extensions><ns3:TPX><ns3:Speed>…` rewrite
twice gives the same text as applying it once, for every input. -/
theorem C9_fix_idempotent (x : List Char) :
    Tcx.fixTcxExtensions (Tcx.fixTcxExtensions x) = Tcx.fixTcxExtensions x :=
  Tcx.fixAux_idem_aux x.length x (Nat.le_refl _)

/-- C4 witness: the amended theorem applied to the concrete failed job
with one pending item. -/
theorem C4_cancelJob_spec_witness :
    (Queue.cancelJob Queue.sFailedJob 5).1 = true ∧
      (Queue.cancelJob Queue.sFailedJob 5).2.status = Queue.JobStatus.cancelled ∧
      (Queue.cancelJob Queue.sFailedJob 5).2.completedAt = some 5 ∧
      (Queue.cancelJob Queue.sFailedJob 5).2.items =
        Queue.sFailedJob.items.map (Queue.cancelItem 5) ∧
      (∀ i ∈ Queue.sFailedJob.items, i.status = Queue.ItemStatus.pending →
        { i with status := Queue.ItemStatus.failed, updatedAt := 5 } ∈
          (Queue.cancelJob Queue.sFailedJob 5).2.items ∧
        (Queue.cancelItem 5 i).errorMessage = i.errorMessage) ∧
      (∀ i ∈ Queue.sFailedJob.items, i.status ≠ Queue.ItemStatus.pending →
        i ∈ (Queue.cancelJob Queue.sFailedJob 5).2.items) ∧
      (Queue.cancelJob Queue.sFailedJob 5).2.items.countP
        (fun i => decide (i.status = Queue.ItemStatus.pending)) = 0 ∧
      (Queue.cancelJob Queue.sFailedJob 5).2.failedCount =
        Queue.sFailedJob.items.countP
          (fun i => decide (i.status = Queue.ItemStatus.failed)) +
          Queue.sFailedJob.items.countP
            (fun i => decide (i.status = Queue.ItemStatus.pending)) ∧
      (Queue.cancelJob Queue.sFailedJob 5).2.successCount =
        Queue.sFailedJob.items.countP
          (fun i => decide (i.status = Queue.ItemStatus.success)) ∧
      (Queue.cancelJob Queue.sFailedJob 5).2.skippedCount =
        Queue.sFailedJob.items.countP
          (fun i => decide (i.status = Queue.ItemStatus.skipped)) :=
  (C4_cancelJob_spec Queue.sFailedJob 5).2 (by decide)
